
import Mathlib

/-!
# Verification of the figgy book-catalog ingestion core

This file gives a shallow embedding of `storage/tools.py` and the data model of
`storage/models.py`, and proves or refutes the specification claims about the
ingestion core (identifier resolution, version inference, alias reconciliation
and issue recording).

Modelling conventions:

* The Django ORM state (tables `Book`, `Alias` and the four issue tables) is an
  explicit `State` record.  Rows are kept in primary-key (creation) order, so
  `QuerySet.first()` on an unordered queryset is `List.find?`, and querysets
  ordered by `Book.Meta.ordering = ["title", "version"]` are modelled by a fold
  selecting the (title, version)-least row (ties resolved to the earliest row,
  matching SQLite's usual rowid behaviour; the tie order is unspecified in SQL
  and no theorem below depends on it).
* Python `float(...)` on version strings is modelled by an exact decimal/rational
  parser `pyFloat`, and `str(float(...))` by the positional decimal renderer
  `pyStr`.  This is exactly CPython's behaviour on all decimal literals that
  round-trip through an IEEE double (in particular on every version string that
  occurs in the repository: short decimals such as "1", "1.0", "2.5", "10.0").
  Not modelled: IEEE rounding of literals with more than 17 significant digits,
  the strings "inf"/"infinity"/"nan", and the scientific-notation output regime
  of `repr` (|x| >= 1e16 or 0 < |x| < 1e-4); these never arise for the data the
  spec and the tests consider.
* `TypeError`/`ValueError` from `float` is the parser returning `none`; the one
  uncaught exception path of the core (`float` applied to a stored version
  string while sorting, `tools.py` line 116) is the `PyResult.exn` constructor.
* XML attribute/`findtext` access returns `Option String` (`none` = attribute or
  element absent, mirroring Python `None`).  Database NULLs are likewise
  `Option` values, and Python `or`-chains use the truthiness of `Option String`
  (`none` and `some ""` are falsy).
* Storage-level constraint enforcement (NOT NULL, unique constraints) belongs to
  the out-of-scope catalog collaborator (spec section 1/6) and is not modelled;
  the in-memory catalog simply stores what the core writes.
-/

namespace Figgy

/-! ## Python float parsing and formatting, modelled on exact decimals -/

/-- Value of a list of ASCII digit characters, most significant first. -/
def digitsToNat (l : List Char) : Nat :=
  l.foldl (fun n c => 10 * n + (c.toNat - '0'.toNat)) 0

/-- Strip leading and trailing whitespace, as Python `float` does. -/
def stripSpaces (l : List Char) : List Char :=
  ((l.dropWhile Char.isWhitespace).reverse.dropWhile Char.isWhitespace).reverse

/-- Split a character list at the first `e`/`E` (exponent marker). -/
def splitExp : List Char → List Char × Option (List Char)
  | [] => ([], none)
  | c :: cs =>
    if c = 'e' ∨ c = 'E' then ([], some cs)
    else
      let (m, e) := splitExp cs
      (c :: m, e)

/-- Parse a non-empty all-digit character list. -/
def parseDigits (cs : List Char) : Option Nat :=
  if cs ≠ [] ∧ cs.all Char.isDigit then some (digitsToNat cs) else none

/-- Parse an unsigned mantissa (`digits`, `digits.digits`, `digits.` or
`.digits`) into numerator and power-of-ten denominator. -/
def parseMantissa (cs : List Char) : Option (Nat × Nat) :=
  let ip := cs.takeWhile (· ≠ '.')
  match cs.dropWhile (· ≠ '.') with
  | [] => (parseDigits ip).map (fun n => (n, 1))
  | '.' :: fp =>
    if (ip ≠ [] ∨ fp ≠ []) ∧ ip.all Char.isDigit ∧ fp.all Char.isDigit then
      some (digitsToNat ip * 10 ^ fp.length + digitsToNat fp, 10 ^ fp.length)
    else none
  | _ => none

/-- Parse an optionally signed exponent. -/
def parseExpPart : List Char → Option Int
  | '+' :: cs => (parseDigits cs).map Int.ofNat
  | '-' :: cs => (parseDigits cs).map (fun n => -(n : Int))
  | cs => (parseDigits cs).map Int.ofNat

/-- Assemble sign, mantissa and decimal exponent into a rational.  All
arithmetic is on `Int`/`Nat` with a single final `mkRat`, so the definition
evaluates inside `decide`. -/
def assembleFloat (sgn : Int) (mn md : Nat) : Int → Rat
  | .ofNat k => mkRat (sgn * (mn * 10 ^ k : Nat)) md
  | .negSucc k => mkRat (sgn * (mn : Nat)) (md * 10 ^ (k + 1))

/-- Python `float(s)` on a string, as an exact rational (`none` = `ValueError`).
Infinities and NaN are not modelled (see the header comment). -/
def pyFloat (s : String) : Option Rat :=
  let cs := stripSpaces s.toList
  let (sgn, body) : Int × List Char :=
    match cs with
    | '+' :: r => (1, r)
    | '-' :: r => (-1, r)
    | r => (1, r)
  let (mant, exp?) := splitExp body
  match parseMantissa mant, exp? with
  | some (mn, md), none => some (assembleFloat sgn mn md 0)
  | some (mn, md), some e => (parseExpPart e).map (fun k => assembleFloat sgn mn md k)
  | none, _ => none

/-- Python `float(x)` where `x` may be `None` (`TypeError`, caught together with
`ValueError` by the source). -/
def pyFloatOpt (s : Option String) : Option Rat :=
  s.bind pyFloat

/-- Least `k` (up to the given fuel) with `d ∣ 10 ^ k`, searching upward. -/
def decExpAux (d : Nat) : Nat → Nat → Option Nat
  | _, 0 => none
  | k, fuel + 1 => if 10 ^ k % d = 0 then some k else decExpAux d (k + 1) fuel

/-- Left-pad a digit string with zeros to the given width. -/
def zeroPad (s : String) (k : Nat) : String :=
  String.mk (List.replicate (k - s.length) '0') ++ s

/-- Python `str(float)` (= `repr`) on the exact decimals produced by `pyFloat`:
positional shortest rendering, integers suffixed with `.0`.  The `/`-fallback
is unreachable for values obtained from `pyFloat` (their denominators divide a
power of ten). -/
def pyStr (q : Rat) : String :=
  let sign := if q.num < 0 then "-" else ""
  let n := q.num.natAbs
  match decExpAux q.den 0 400 with
  | none => sign ++ toString n ++ "/" ++ toString q.den
  | some k =>
    let scaled := n * 10 ^ k / q.den
    if k = 0 then sign ++ toString scaled ++ ".0"
    else sign ++ toString (scaled / 10 ^ k) ++ "." ++ zeroPad (toString (scaled % 10 ^ k)) k

/-! ## Data model (`storage/models.py`)

Rows carry their surrogate primary key `pk`; the row lists are kept in
ascending-pk (creation) order.  Database NULLs are `none`. -/

/-- A `Book` row: a specific edition of a title (`models.py`, class `Book`). -/
structure Book where
  pk : Nat
  book_id : Option String
  title : Option String
  description : Option String
  version : String
deriving DecidableEq

/-- An `Alias` row; `bookPk` is the `book` foreign key (`models.py`, class
`Alias`). -/
structure BookAlias where
  pk : Nat
  bookPk : Nat
  scheme : Option String
  value : Option String
deriving DecidableEq

/-- An `AliasUsedAsBookIdIssue` row (`alias_used`/`book_resolved` foreign keys
stored as pks). -/
structure AliasUsedAsBookIdIssue where
  aliasPk : Nat
  bookPk : Nat
  source_file : String
deriving DecidableEq

/-- An `AliasUsedToResolveBookIdIssue` row. -/
structure AliasUsedToResolveBookIdIssue where
  aliasPk : Nat
  bookPk : Nat
  source_file : String
deriving DecidableEq

/-- An `AliasPointsToConflictingBookIssue` row. -/
structure AliasPointsToConflictingBookIssue where
  bookPk : Nat
  scheme : Option String
  value : Option String
  source_file : String
deriving DecidableEq

/-- A `VersionUnspecifiedIssue` row. -/
structure VersionUnspecifiedIssue where
  book_id : Option String
  source_file : String
deriving DecidableEq

/-- The catalog: all tables, plus the next fresh primary keys. -/
structure State where
  books : List Book
  aliases : List BookAlias
  aliasIdIssues : List AliasUsedAsBookIdIssue
  aliasResolveIssues : List AliasUsedToResolveBookIdIssue
  conflictIssues : List AliasPointsToConflictingBookIssue
  versionIssues : List VersionUnspecifiedIssue
  nextBookPk : Nat
  nextAliasPk : Nat
deriving DecidableEq

/-- An `<alias>` element of the incoming record: `alias.get("scheme")` /
`alias.get("value")` (absent attribute = `none`). -/
structure AliasElem where
  scheme : Option String
  value : Option String
deriving DecidableEq

/-- A `<book>` element: `get("id")`, `findtext("title")`,
`findtext("description")`, `findtext("version")` and the `aliases/alias`
elements in document order. -/
structure BookElement where
  id : Option String
  title : Option String
  description : Option String
  version : Option String
  aliases : List AliasElem
deriving DecidableEq

/-- Python result of a call that may raise: `exn` models the one uncaught
exception path of the core (`float` on a stored version string). -/
inductive PyResult (α : Type) where
  | ok : α → PyResult α
  | exn : PyResult α
deriving DecidableEq

/-! ## Catalog primitives -/

/-- Look a book row up by primary key (foreign-key dereference). -/
def findBookByPk (st : State) (pk : Nat) : Option Book :=
  st.books.find? (fun b => b.pk == pk)

/-- `alias.book.book_id`: the owning book's `book_id`.  A dangling foreign key
(impossible under the database's referential integrity) dereferences to `none`,
which behaves like a book with a NULL id. -/
def ownerBookId (st : State) (a : BookAlias) : Option String :=
  (findBookByPk st a.bookPk).bind (fun b => b.book_id)

/-- `Alias.objects.filter(scheme=..., value=...).first()`: first match in pk
order. -/
def findAlias (st : State) (scheme value : Option String) : Option BookAlias :=
  st.aliases.find? (fun a => a.scheme == scheme && a.value == value)

/-- Python truthiness of a string-or-None value: `None` and `""` are falsy. -/
def truthy : Option String → Bool
  | none => false
  | some s => !s.isEmpty

/-- Lexicographic order on strings by character (SQLite's BINARY collation on
the ASCII data at hand; agrees with codepoint order).  Defined on character
lists so that it evaluates inside `decide`. -/
def strLtChars : List Char → List Char → Bool
  | [], [] => false
  | [], _ :: _ => true
  | _ :: _, [] => false
  | a :: as, b :: bs => if a < b then true else if a = b then strLtChars as bs else false

/-- Strict order on two strings. -/
def strLt (a b : String) : Bool :=
  strLtChars a.toList b.toList

/-- SQL ascending order on a nullable text column (NULLs first, as SQLite
orders them). -/
def optStrLt : Option String → Option String → Bool
  | none, none => false
  | none, some _ => true
  | some _, none => false
  | some a, some b => strLt a b

/-- Strict order on books per `Book.Meta.ordering = ["title", "version"]`. -/
def bookOrdLt (b1 b2 : Book) : Bool :=
  optStrLt b1.title b2.title || (b1.title == b2.title && strLt b1.version b2.version)

/-- `QuerySet.first()` on a `Book` queryset: least row by (title, version),
ties resolved to the earliest row (tie order is unspecified in SQL; no claim
below depends on it). -/
def firstBook (l : List Book) : Option Book :=
  l.foldl
    (fun acc b =>
      match acc with
      | none => some b
      | some a => if bookOrdLt b a then some b else acc)
    none

/-- `VersionUnspecifiedIssue.objects.get_or_create(book_id=..., source_file=...)`
(`tools.py` line 107): append the row if no row with the same fields exists. -/
def recordVersionIssue (st : State) (book_id : Option String) (file : String) : State :=
  if st.versionIssues.contains ⟨book_id, file⟩ then st
  else { st with versionIssues := st.versionIssues ++ [⟨book_id, file⟩] }

/-- `AliasUsedAsBookIdIssue.objects.get_or_create(...)` (`tools.py` line 68). -/
def recordAliasIdIssue (st : State) (aliasPk bookPk : Nat) (file : String) : State :=
  if st.aliasIdIssues.contains ⟨aliasPk, bookPk, file⟩ then st
  else { st with aliasIdIssues := st.aliasIdIssues ++ [⟨aliasPk, bookPk, file⟩] }

/-- `AliasUsedToResolveBookIdIssue.objects.get_or_create(...)` (`tools.py`
line 34). -/
def recordAliasResolveIssue (st : State) (aliasPk bookPk : Nat) (file : String) : State :=
  if st.aliasResolveIssues.contains ⟨aliasPk, bookPk, file⟩ then st
  else { st with aliasResolveIssues := st.aliasResolveIssues ++ [⟨aliasPk, bookPk, file⟩] }

/-- `AliasPointsToConflictingBookIssue.objects.get_or_create(...)` (`tools.py`
line 146). -/
def recordConflictIssue (st : State) (bookPk : Nat) (scheme value : Option String)
    (file : String) : State :=
  if st.conflictIssues.contains ⟨bookPk, scheme, value, file⟩ then st
  else { st with conflictIssues := st.conflictIssues ++ [⟨bookPk, scheme, value, file⟩] }

/-- `book.aliases.get_or_create(scheme=..., value=...)` (`tools.py` lines 155
and 166): create the alias on this book row unless it already has it. -/
def bookAliasGetOrCreate (st : State) (bookPk : Nat) (scheme value : Option String) : State :=
  if st.aliases.any (fun a => a.bookPk == bookPk && a.scheme == scheme && a.value == value) then
    st
  else
    { st with
      aliases := st.aliases ++ [⟨st.nextAliasPk, bookPk, scheme, value⟩],
      nextAliasPk := st.nextAliasPk + 1 }

/-- `Book.objects.get_or_create(book_id=..., version=...)` (`tools.py` line
223).  A freshly created row gets Django's field defaults: empty-string title,
NULL description. -/
def bookGetOrCreate (st : State) (book_id : Option String) (version : String) :
    State × Book :=
  match st.books.find? (fun b => b.book_id == book_id && b.version == version) with
  | some b => (st, b)
  | none =>
    let b : Book := ⟨st.nextBookPk, book_id, some "", none, version⟩
    ({ st with books := st.books ++ [b], nextBookPk := st.nextBookPk + 1 }, b)

/-- `book.save()`: write the in-memory object's fields back to its row. -/
def saveBook (st : State) (b : Book) : State :=
  { st with books := st.books.map (fun x => if x.pk == b.pk then b else x) }

/-- The (scheme, value) pairs of the aliases owned by a book row
(`book.aliases.all()` in pk order). -/
def aliasPairs (st : State) (bookPk : Nat) : List (Option String × Option String) :=
  (st.aliases.filter (fun a => a.bookPk == bookPk)).map (fun a => (a.scheme, a.value))

/-! ## The core algorithms (`storage/tools.py`) -/

/-- `_fetch_book_id_by_scheme(scheme, source_file, value)` (`tools.py` lines
46-76): look up an alias of the given trusted scheme whose value is the
declared id; if found, record an `AliasUsedAsBookIdIssue` and return the owning
book's `book_id`. -/
def _fetch_book_id_by_scheme (st : State) (scheme : String) (source_file : String)
    (value : Option String) : State × Option String :=
  match findAlias st (some scheme) value with
  | none => (st, none)
  | some a =>
    let st := recordAliasIdIssue st a.pk a.bookPk source_file
    (st, ownerBookId st a)

/-- `_fetch_book_id_by_aliases(aliases, source_file)` (`tools.py` lines 15-43):
scan the record's aliases in document order; on the first catalog match record
an `AliasUsedToResolveBookIdIssue` and return the owning book's `book_id`. -/
def _fetch_book_id_by_aliases (st : State) (aliases : List AliasElem)
    (source_file : String) : State × Option String :=
  match aliases with
  | [] => (st, none)
  | ae :: rest =>
    match findAlias st ae.scheme ae.value with
    | some a =>
      let st := recordAliasResolveIssue st a.pk a.bookPk source_file
      (st, ownerBookId st a)
    | none => _fetch_book_id_by_aliases st rest source_file

/-- `_resolve_book_id(aliases, book_id, filename)` (`tools.py` lines 171-205).
The Python `or`-chain short-circuits on the first truthy result, so a step
whose returned `book_id` is `None` or `""` falls through to the next step even
though its issue record has already been written. -/
def _resolve_book_id (st : State) (aliases : List AliasElem) (book_id : Option String)
    (filename : String) : State × Option String :=
  match st.books.find? (fun b => b.book_id == book_id) with
  | some _ => (st, book_id)
  | none =>
    let f10 := _fetch_book_id_by_scheme st "ISBN-10" filename book_id
    if truthy f10.2 then f10
    else
      let f13 := _fetch_book_id_by_scheme f10.1 "ISBN-13" filename book_id
      if truthy f13.2 then f13
      else
        let f3 := _fetch_book_id_by_aliases f13.1 aliases filename
        if truthy f3.2 then f3 else (f3.1, book_id)

/-- Comparison used for the minimum of a list of rationals, written on raw
numerators/denominators so that it evaluates inside `decide` (equivalent to
`Rat.le` since denominators are positive). -/
def ratLE (a b : Rat) : Bool :=
  a.num * (b.den : Int) ≤ b.num * (a.den : Int)

/-- Minimum of a non-empty list of rationals (the `[]` case is unreachable and
returns 0).  `existing_books.sort(key=lambda x: -float(x.version))` sorts
descending by numeric value, so `existing_books[-1]` — the element the source
increments — attains the MINIMUM of the float values. -/
def minimumRat : List Rat → Rat
  | [] => 0
  | x :: xs => xs.foldl (fun a b => if ratLE a b then a else b) x

/-- `float(v) + 1`, exact on the decimals involved. -/
def ratAddOne (q : Rat) : Rat :=
  mkRat (q.num + (q.den : Int)) q.den

/-- Apply a fallible function to every element (the sort's key function is
evaluated on every list element; the first failure raises).  Explicit
structural recursion in place of `List.mapM` for proof transparency. -/
def mapMOpt {α β : Type} (f : α → Option β) : List α → Option (List β)
  | [] => some []
  | a :: l =>
    match f a, mapMOpt f l with
    | some b, some bs => some (b :: bs)
    | _, _ => none

/-- `_infer_book_version(book_id, filename, version)` (`tools.py` lines
79-117).  On a version string that parses, return its canonical form.
Otherwise record a `VersionUnspecifiedIssue`, then: no existing book with this
id → `"1.0"`; else sort the existing books by descending float version and
increment the LAST one (the minimum); `float` on an unparseable stored version
raises out of the function (`PyResult.exn`). -/
def _infer_book_version (st : State) (book_id : Option String) (filename : String)
    (version : Option String) : State × PyResult String :=
  match pyFloatOpt version with
  | some q => (st, .ok (pyStr q))
  | none =>
    let st := recordVersionIssue st book_id filename
    let existing := st.books.filter (fun b => b.book_id == book_id)
    if existing.isEmpty then (st, .ok "1.0")
    else
      match mapMOpt (fun x => pyFloat x.version) existing with
      | none => (st, .exn)
      | some qs => (st, .ok (pyStr (ratAddOne (minimumRat qs))))

/-- One iteration of the alias loop of `_process_book_aliases` (`tools.py`
lines 138-155): a catalog alias with the same (scheme, value) owned by a book
with a different `book_id` is a conflict (recorded, not attached); otherwise
the pair is attached to the processed book row via get-or-create. -/
def processAliasElem (book_id : Option String) (bookPk : Nat) (filename : String)
    (st : State) (ae : AliasElem) : State :=
  match findAlias st ae.scheme ae.value with
  | some a =>
    if ownerBookId st a != book_id then
      recordConflictIssue st a.bookPk ae.scheme ae.value filename
    else
      bookAliasGetOrCreate st bookPk ae.scheme ae.value
  | none => bookAliasGetOrCreate st bookPk ae.scheme ae.value

/-- The backfill of `_process_book_aliases` (`tools.py` lines 158-168): find
the first existing book with the resolved id — `filter(book_id=...).first()`,
the (title, version)-least row, the freshly upserted row included — compute
the alias pairs it has that the processed book lacks, create them on the
processed book, save.  (The Python `list(set(...))` iteration order is
unspecified; the model iterates in the source row's alias order.  No claim
depends on this order.) -/
def backfillStep (st : State) (book : Book) (book_id : Option String) : State :=
  match firstBook (st.books.filter (fun b => b.book_id == book_id)) with
  | none => st
  | some existing_book =>
    saveBook
      (((aliasPairs st existing_book.pk).filter
          (fun p => !((aliasPairs st book.pk).contains p))).foldl
        (fun s p => bookAliasGetOrCreate s book.pk p.1 p.2) st)
      book

/-- `_process_book_aliases(aliases, book, book_id, filename)` (`tools.py` lines
120-168): process the record's aliases (conflict check and get-or-create per
alias), save the book, then run the backfill. -/
def _process_book_aliases (st : State) (aliases : List AliasElem) (book : Book)
    (book_id : Option String) (filename : String) : State :=
  backfillStep (saveBook (aliases.foldl (processAliasElem book_id book.pk filename) st) book)
    book book_id

/-- `process_book_element(book_element, filename)` (`tools.py` lines 208-228):
resolve the id, infer the version, upsert the book row, overwrite
title/description, reconcile aliases, save. -/
def process_book_element (st : State) (el : BookElement) (filename : String) :
    State × PyResult Unit :=
  let r := _resolve_book_id st el.aliases el.id filename
  let iv := _infer_book_version r.1 r.2 filename el.version
  match iv.2 with
  | .exn => (iv.1, .exn)
  | .ok version =>
    let gc := bookGetOrCreate iv.1 r.2 version
    let book := { gc.2 with title := el.title, description := el.description }
    let st4 := _process_book_aliases gc.1 el.aliases book r.2 filename
    (saveBook st4 book, .ok ())

/-- The in-memory `Book` object as it stands at `tools.py` line 226 (row from
the upsert with title/description overwritten); `none` when version inference
raised.  Recomputes the deterministic pipeline prefix of
`process_book_element`. -/
def processedBook (st : State) (el : BookElement) (filename : String) : Option Book :=
  let r := _resolve_book_id st el.aliases el.id filename
  let iv := _infer_book_version r.1 r.2 filename el.version
  match iv.2 with
  | .exn => none
  | .ok version =>
    some { (bookGetOrCreate iv.1 r.2 version).2 with
           title := el.title, description := el.description }

/-! ## Concrete catalogs, records and predicates used by the claim analyses

All remaining declarations are theorems; every definition of the development
stands above this line. -/

/-- Numeric maximum of a list of rationals, as the claim's `max(existing
versions)` (spec wording; for comparison against the source's behaviour). -/
def maximumRat : List Rat → Rat
  | [] => 0
  | x :: xs => xs.foldl (fun a b => if ratLE a b then b else a) x

/-- Catalog with book "X" at versions 1.0 and 2.0 (same title). -/
def c1State : State :=
  { books := [⟨1, some "X", some "T", none, "1.0"⟩, ⟨2, some "X", some "T", none, "2.0"⟩],
    aliases := [], aliasIdIssues := [], aliasResolveIssues := [], conflictIssues := [],
    versionIssues := [], nextBookPk := 3, nextAliasPk := 1 }

/-- Catalog whose only book has `book_id = ""` and owns the ISBN-10 alias
"X". -/
def c5State : State :=
  { books := [⟨1, some "", some "T", none, "1.0"⟩],
    aliases := [⟨1, 1, some "ISBN-10", some "X"⟩],
    aliasIdIssues := [], aliasResolveIssues := [], conflictIssues := [],
    versionIssues := [], nextBookPk := 2, nextAliasPk := 2 }

/-- The resolution precedence exactly as the claim words it: first success
wins, and a successful step returns the matching alias's owning book's
`book_id` unconditionally. -/
def resolveSpecClaim (st : State) (aliases : List AliasElem) (declared : Option String) :
    Option String :=
  if (st.books.find? (fun b => b.book_id == declared)).isSome then declared
  else
    match findAlias st (some "ISBN-10") declared with
    | some a => ownerBookId st a
    | none =>
      match findAlias st (some "ISBN-13") declared with
      | some a => ownerBookId st a
      | none =>
        match aliases.findSome? (fun ae => findAlias st ae.scheme ae.value) with
        | some a => ownerBookId st a
        | none => declared

/-- The save function `saveBook` applies rowwise. -/
def saveFun (b : Book) (x : Book) : Book :=
  if x.pk == b.pk then b else x

/-- A record with no `<title>` element at all. -/
def c4Element : BookElement := ⟨some "N", none, none, some "1.0", []⟩

/-- The empty catalog. -/
def emptyState : State := ⟨[], [], [], [], [], [], 1, 1⟩

/-- Catalog with book "X" version 1.0 titled "B", owning alias (P, V). -/
def c3State : State :=
  { books := [⟨1, some "X", some "B", none, "1.0"⟩],
    aliases := [⟨1, 1, some "P", some "V"⟩],
    aliasIdIssues := [], aliasResolveIssues := [], conflictIssues := [],
    versionIssues := [], nextBookPk := 2, nextAliasPk := 2 }

/-- Update of book "X" to version 2.0 under the title "A" (sorting before
"B"), not re-listing the alias (P, V). -/
def c3Element : BookElement := ⟨some "X", some "A", none, some "2.0", []⟩

/-- Key/referential well-formedness of a catalog state, guaranteed by the
database: book pks are distinct, the next-pk counter is fresh, and alias
foreign keys resolve to existing books. -/
def StateWF (st : State) : Prop :=
  st.books.Pairwise (fun a b => a.pk ≠ b.pk) ∧
  (∀ b ∈ st.books, b.pk < st.nextBookPk) ∧
  (∀ a ∈ st.aliases, ∃ b ∈ st.books, a.bookPk = b.pk)

/-- Does a catalog alias row carry the record alias's (scheme, value) pair? -/
def pairMatch (ae : AliasElem) (al : BookAlias) : Bool :=
  al.scheme == ae.scheme && al.value == ae.value

/-- Loop invariant for the alias-conflict claim, relative to the original
state `st` and the pre-loop state `stM`: the pair-matching aliases are exactly
the original ones, the book table is untouched, and the tracked conflict tuple
`T` has been recorded at most once beyond its original count. -/
structure ConflictInv (st stM : State) (ae : AliasElem)
    (T : AliasPointsToConflictingBookIssue) (s : State) : Prop where
  pairsEq : s.aliases.filter (pairMatch ae) = st.aliases.filter (pairMatch ae)
  booksEq : s.books = stM.books
  cnt : s.conflictIssues.count T = st.conflictIssues.count T ∨
    (s.conflictIssues.count T = st.conflictIssues.count T + 1 ∧
     st.conflictIssues.count T = 0)
  ext : ∃ t, s.conflictIssues = st.conflictIssues ++ t

/-- The repository's own test fixture (`test_tools.py` setUp). -/
def c6State : State :=
  ⟨[⟨1, some "book-1", some "Book 1", none, "1.0"⟩,
    ⟨2, some "book-2", some "Book 2", none, "1.0"⟩],
   [⟨1, 1, some "ISBN-10", some "1000000001"⟩,
    ⟨2, 2, some "ISBN-10", some "1000000002"⟩], [], [], [], [], 3, 3⟩

/-- The conflicting update of the repository's own test
(`test_..._with_conflicting_alias`): a record for `book-1` listing the ISBN-10
alias value owned by `book-2`. -/
def c6Element : BookElement :=
  ⟨some "book-1", some "Book 1", none, some "2.0",
    [⟨some "ISBN-10", some "1000000002"⟩]⟩

/-- The natural key of a book row. -/
def pairOf (b : Book) : Option String × String :=
  (b.book_id, b.version)

/-- No two book rows share the same (book_id, version). -/
def DistinctPairs (st : State) : Prop :=
  (st.books.map pairOf).Nodup

/-- A record with missing version text. -/
def c2Element : BookElement := ⟨some "X", some "T", none, none, []⟩

/-- Catalog for the second C2 counterexample: book "B1" owning the
proprietary alias (PROP, V). -/
def c2State3 : State :=
  { books := [⟨1, some "B1", some "T", none, "1.0"⟩],
    aliases := [⟨1, 1, some "PROP", some "V"⟩],
    aliasIdIssues := [], aliasResolveIssues := [], conflictIssues := [],
    versionIssues := [], nextBookPk := 2, nextAliasPk := 2 }

/-- A record with a dangling declared id "X", resolved through its second
alias (PROP, V) by the untrusted-alias step; its first alias (OTHER, W)
matches nothing on the first run. -/
def c2Element3 : BookElement :=
  ⟨some "X", some "T", none, some "2.0",
    [⟨some "OTHER", some "W"⟩, ⟨some "PROP", some "V"⟩]⟩

/-- A record alias the catalog has already absorbed for the processed book row
`bpk` under the resolved id `bid`: the pair's first catalog match either has a
conflicting owner with the conflict tuple on file, or has the resolved owner
with the pair attached to `bpk`.  On a settled alias the loop body of
`_process_book_aliases` is the identity. -/
def aliasSettled (bid : Option String) (bpk : Nat) (f : String) (s : State)
    (ae : AliasElem) : Prop :=
  ∃ a, findAlias s ae.scheme ae.value = some a ∧
    (((ownerBookId s a != bid) = true ∧
        (⟨a.bookPk, ae.scheme, ae.value, f⟩ : AliasPointsToConflictingBookIssue) ∈
          s.conflictIssues) ∨
      ((ownerBookId s a != bid) = false ∧
        s.aliases.any
          (fun x => x.bookPk == bpk && x.scheme == ae.scheme && x.value == ae.value) = true))

/-- Witness catalog for the amended C2 theorem: book "B1" owning the ISBN-10
alias "X". -/
def c2WState : State :=
  { books := [⟨1, some "B1", some "T", none, "1.0"⟩],
    aliases := [⟨1, 1, some "ISBN-10", some "X"⟩],
    aliasIdIssues := [], aliasResolveIssues := [], conflictIssues := [],
    versionIssues := [], nextBookPk := 2, nextAliasPk := 2 }

/-- Witness record: it declares the ISBN-10 value "X" as its id, so both runs
resolve it through the trusted-scheme step (step 2) to "B1". -/
def c2WElement : BookElement := ⟨some "X", some "T2", none, some "2.0", []⟩

/-- Spot checks of the float parser against CPython `float` behaviour. -/
theorem pyFloat_model_checks :
    pyFloat "1" = some (mkRat 1 1) ∧ pyFloat "2.5" = some (mkRat 5 2) ∧
    pyFloat " 10.0 " = some (mkRat 10 1) ∧ pyFloat "" = none ∧
    pyFloat "abc" = none ∧ pyFloat "1.2.3" = none ∧
    pyFloat "-0.5" = some (mkRat (-1) 2) ∧ pyFloat "1e2" = some (mkRat 100 1) ∧
    pyFloat "5e-1" = some (mkRat 1 2) ∧ pyFloat "." = none ∧
    pyFloat ".5" = some (mkRat 1 2) ∧ pyFloat "5." = some (mkRat 5 1) := by decide

/-- Spot checks of the decimal rendering against CPython `str`. -/
theorem pyStr_model_checks :
    pyStr (mkRat 1 1) = "1.0" ∧ pyStr (mkRat 5 2) = "2.5" ∧
    pyStr (mkRat (-21) 20) = "-1.05" ∧ pyStr (mkRat 0 1) = "0.0" ∧
    pyStr (mkRat 1 8) = "0.125" := by decide

/-! ## Basic state lemmas -/

theorem recordVersionIssue_books (st : State) (bid : Option String) (f : String) :
    (recordVersionIssue st bid f).books = st.books := by
  unfold recordVersionIssue; split <;> rfl

theorem recordVersionIssue_aliases (st : State) (bid : Option String) (f : String) :
    (recordVersionIssue st bid f).aliases = st.aliases := by
  unfold recordVersionIssue; split <;> rfl

theorem recordAliasIdIssue_books (st : State) (a b : Nat) (f : String) :
    (recordAliasIdIssue st a b f).books = st.books := by
  unfold recordAliasIdIssue; split <;> rfl

theorem recordAliasIdIssue_aliases (st : State) (a b : Nat) (f : String) :
    (recordAliasIdIssue st a b f).aliases = st.aliases := by
  unfold recordAliasIdIssue; split <;> rfl

theorem recordAliasResolveIssue_books (st : State) (a b : Nat) (f : String) :
    (recordAliasResolveIssue st a b f).books = st.books := by
  unfold recordAliasResolveIssue; split <;> rfl

theorem recordAliasResolveIssue_aliases (st : State) (a b : Nat) (f : String) :
    (recordAliasResolveIssue st a b f).aliases = st.aliases := by
  unfold recordAliasResolveIssue; split <;> rfl

theorem recordConflictIssue_books (st : State) (p : Nat) (s v : Option String) (f : String) :
    (recordConflictIssue st p s v f).books = st.books := by
  unfold recordConflictIssue; split <;> rfl

theorem recordConflictIssue_aliases (st : State) (p : Nat) (s v : Option String) (f : String) :
    (recordConflictIssue st p s v f).aliases = st.aliases := by
  unfold recordConflictIssue; split <;> rfl

theorem saveBook_aliases (st : State) (b : Book) :
    (saveBook st b).aliases = st.aliases := rfl

theorem bookAliasGetOrCreate_books (st : State) (p : Nat) (s v : Option String) :
    (bookAliasGetOrCreate st p s v).books = st.books := by
  unfold bookAliasGetOrCreate; split <;> rfl

/-! ## Claim C1: inferred version for a catalog with prior versions

The spec (and the source's own docstring, `tools.py` lines 84-85 and 115)
prescribe `max(existing versions) + 1`.  The code sorts the existing books in
DESCENDING float order (`key=lambda x: -float(x.version)`) and then increments
`existing_books[-1]` — the last element of the descending list, i.e. the
MINIMUM.  With versions 1.0 and 2.0 on file it therefore returns "2.0"
(overwriting the existing 2.0 row on upsert) instead of "3.0". -/

/-- C1: for a record with missing version text and existing versions 1.0 and
2.0 of the resolved book, the claim says the inferred version is the numeric
maximum plus one, "3.0"; the code returns the numeric minimum plus one, "2.0".
(The claim is right and the code wrong: the function's own docstring says
"find the latest version and return the version + 1".) -/
theorem c1_infer_version_increments_minimum :
    (_infer_book_version c1State (some "X") "update.xml" none).2 = PyResult.ok "2.0" ∧
    pyStr (ratAddOne (maximumRat [mkRat 1 1, mkRat 2 1])) = "3.0" ∧
    PyResult.ok "2.0" ≠ PyResult.ok "3.0" := by decide

/-! ## Claim C5: identifier-resolution precedence

Counterexample to the claim as stated: the `or`-chain of `tools.py` lines
201-205 treats an empty-string `book_id` as a failed resolution.  If the
catalog owner of the trusted alias has `book_id == ""`, step 2 matches, writes
its issue, but its result is falsy, so resolution falls through to step 4 and
returns the declared id instead of the matching alias's owning book's id. -/

/-- C5 counterexample: no book has the declared id "X" (step 1 fails); the
ISBN-10 alias with value "X" exists and its owning book's `book_id` is `""`;
the claim says resolution returns that owning book's `book_id` (`""`), but the
code returns the declared id "X" (and still records the step-2 issue). -/
theorem c5_precedence_cex :
    (c5State.books.find? (fun b => b.book_id == some "X")) = none ∧
    findAlias c5State (some "ISBN-10") (some "X") = some ⟨1, 1, some "ISBN-10", some "X"⟩ ∧
    ownerBookId c5State ⟨1, 1, some "ISBN-10", some "X"⟩ = some "" ∧
    (_resolve_book_id c5State [] (some "X") "f.xml").2 = some "X" ∧
    (some "X" : Option String) ≠ some "" ∧
    (_resolve_book_id c5State [] (some "X") "f.xml").1.aliasIdIssues =
      [⟨1, 1, "f.xml"⟩] := by decide

theorem ownerBookId_congr {st st' : State} (hb : st'.books = st.books) (a : BookAlias) :
    ownerBookId st' a = ownerBookId st a := by
  unfold ownerBookId findBookByPk; rw [hb]

theorem findAlias_congr {st st' : State} (ha : st'.aliases = st.aliases)
    (s v : Option String) : findAlias st' s v = findAlias st s v := by
  unfold findAlias; rw [ha]

theorem findAlias_mem {st : State} {s v : Option String} {a : BookAlias}
    (h : findAlias st s v = some a) : a ∈ st.aliases :=
  List.mem_of_find?_eq_some h

/-- `_fetch_book_id_by_scheme` returns the owning book's id of the first
matching alias (through the issue write, which touches neither books nor
aliases). -/
theorem fetch_by_scheme_spec (st : State) (scheme f : String) (v : Option String) :
    (_fetch_book_id_by_scheme st scheme f v).2 =
      (findAlias st (some scheme) v).bind (ownerBookId st) ∧
    (_fetch_book_id_by_scheme st scheme f v).1.books = st.books ∧
    (_fetch_book_id_by_scheme st scheme f v).1.aliases = st.aliases := by
  unfold _fetch_book_id_by_scheme
  cases hfa : findAlias st (some scheme) v with
  | none => exact ⟨rfl, rfl, rfl⟩
  | some a =>
    refine ⟨?_, recordAliasIdIssue_books .., recordAliasIdIssue_aliases ..⟩
    simp only [Option.some_bind]
    exact ownerBookId_congr (recordAliasIdIssue_books ..) a

/-- `_fetch_book_id_by_aliases` returns the owning book's id of the first
record alias that matches the catalog. -/
theorem fetch_by_aliases_spec (st : State) (l : List AliasElem) (f : String) :
    (_fetch_book_id_by_aliases st l f).2 =
      (l.findSome? (fun ae => findAlias st ae.scheme ae.value)).bind (ownerBookId st) ∧
    (_fetch_book_id_by_aliases st l f).1.books = st.books ∧
    (_fetch_book_id_by_aliases st l f).1.aliases = st.aliases := by
  induction l with
  | nil => exact ⟨rfl, rfl, rfl⟩
  | cons ae rest ih =>
    unfold _fetch_book_id_by_aliases
    cases hfa : findAlias st ae.scheme ae.value with
    | some a =>
      rw [List.findSome?_cons]
      rw [hfa]
      refine ⟨?_, recordAliasResolveIssue_books .., recordAliasResolveIssue_aliases ..⟩
      simp only [Option.some_bind]
      exact ownerBookId_congr (recordAliasResolveIssue_books ..) a
    | none =>
      rw [List.findSome?_cons, hfa]
      exact ih

/-- C5 amended: the precedence order is as the claim states it, except that a
step whose resolved `book_id` is `None` or the empty string is treated as a
failed resolution (Python falsiness) and resolution falls through, its issue
record notwithstanding.  On catalogs in which every alias's owning book has a
non-empty `book_id` — every catalog the ingester itself builds from non-empty
declared ids — the resolved id is exactly the claim's. -/
theorem c5_precedence_amended (st : State) (aliases : List AliasElem)
    (declared : Option String) (filename : String)
    (h : ∀ a ∈ st.aliases, truthy (ownerBookId st a) = true) :
    (_resolve_book_id st aliases declared filename).2 =
      resolveSpecClaim st aliases declared := by
  unfold _resolve_book_id resolveSpecClaim
  cases hf : st.books.find? (fun b => b.book_id == declared) with
  | some b => simp
  | none =>
    simp only [Option.isSome_none, Bool.false_eq_true, if_false]
    obtain ⟨h10v, h10b, h10a⟩ := fetch_by_scheme_spec st "ISBN-10" filename declared
    set st1 := (_fetch_book_id_by_scheme st "ISBN-10" filename declared).1 with hst1
    cases hfa10 : findAlias st (some "ISBN-10") declared with
    | some a =>
      have htr : truthy (_fetch_book_id_by_scheme st "ISBN-10" filename declared).2 = true := by
        rw [h10v, hfa10, Option.some_bind]
        exact h a (findAlias_mem hfa10)
      rw [htr]
      simp only [if_true]
      rw [h10v, hfa10, Option.some_bind]
    | none =>
      have htr : truthy (_fetch_book_id_by_scheme st "ISBN-10" filename declared).2 = false := by
        rw [h10v, hfa10]; rfl
      rw [htr]
      simp only [Bool.false_eq_true, if_false]
      obtain ⟨h13v, h13b, h13a⟩ := fetch_by_scheme_spec st1 "ISBN-13" filename declared
      rw [findAlias_congr h10a] at h13v
      set st2 := (_fetch_book_id_by_scheme st1 "ISBN-13" filename declared).1 with hst2
      have hb2 : st2.books = st.books := h13b.trans h10b
      have ha2 : st2.aliases = st.aliases := h13a.trans h10a
      cases hfa13 : findAlias st (some "ISBN-13") declared with
      | some a =>
        have htr13 : truthy (_fetch_book_id_by_scheme st1 "ISBN-13" filename declared).2
            = true := by
          rw [h13v, hfa13, Option.some_bind, ownerBookId_congr h10b]
          exact h a (findAlias_mem hfa13)
        rw [htr13]
        simp only [if_true]
        rw [h13v, hfa13, Option.some_bind, ownerBookId_congr h10b]
      | none =>
        have htr13 : truthy (_fetch_book_id_by_scheme st1 "ISBN-13" filename declared).2
            = false := by rw [h13v, hfa13]; rfl
        rw [htr13]
        simp only [Bool.false_eq_true, if_false]
        obtain ⟨h3v, h3b, h3a⟩ := fetch_by_aliases_spec st2 aliases filename
        have hfs :
            (aliases.findSome? (fun ae => findAlias st2 ae.scheme ae.value)) =
            (aliases.findSome? (fun ae => findAlias st ae.scheme ae.value)) := by
          have hfun : (fun ae : AliasElem => findAlias st2 ae.scheme ae.value) =
              (fun ae : AliasElem => findAlias st ae.scheme ae.value) := by
            funext ae
            exact findAlias_congr ha2 ae.scheme ae.value
          rw [hfun]
        rw [hfs] at h3v
        cases hfs3 : aliases.findSome? (fun ae => findAlias st ae.scheme ae.value) with
        | some a =>
          have hmem : a ∈ st.aliases := by
            obtain ⟨ae, _, hae⟩ := List.exists_of_findSome?_eq_some hfs3
            exact findAlias_mem hae
          have htr3 : truthy (_fetch_book_id_by_aliases st2 aliases filename).2 = true := by
            rw [h3v, hfs3, Option.some_bind, ownerBookId_congr hb2]
            exact h a hmem
          rw [htr3]
          simp only [if_true]
          rw [h3v, hfs3, Option.some_bind, ownerBookId_congr hb2]
        | none =>
          have htr3 : truthy (_fetch_book_id_by_aliases st2 aliases filename).2 = false := by
            rw [h3v, hfs3]; rfl
          rw [htr3]
          simp

/-- C5 amended, witness: on the repository's own test fixture (books `book-1`
and `book-2` with their ISBN-10 aliases) and the declared id "1000000001", the
code's resolution equals the claim's precedence rule. -/
theorem c5_precedence_amended_witness :
    (_resolve_book_id
      ⟨[⟨1, some "book-1", some "Book 1", none, "1.0"⟩,
        ⟨2, some "book-2", some "Book 2", none, "1.0"⟩],
       [⟨1, 1, some "ISBN-10", some "1000000001"⟩,
        ⟨2, 2, some "ISBN-10", some "1000000002"⟩], [], [], [], [], 3, 3⟩
      [] (some "1000000001") "u.xml").2 =
    resolveSpecClaim
      ⟨[⟨1, some "book-1", some "Book 1", none, "1.0"⟩,
        ⟨2, some "book-2", some "Book 2", none, "1.0"⟩],
       [⟨1, 1, some "ISBN-10", some "1000000001"⟩,
        ⟨2, 2, some "ISBN-10", some "1000000002"⟩], [], [], [], [], 3, 3⟩
      [] (some "1000000001") :=
  c5_precedence_amended _ _ _ _ (by decide)

/-! ## Claim C7: a declared id matching an existing book is trusted outright -/

/-- C7: when some catalog book already has `book_id == declared_id`,
`_resolve_book_id` returns the declared id and the whole state unchanged — in
particular no `AliasUsedAsBookIdIssue` and no `AliasUsedToResolveBookIdIssue`
is created (`tools.py` lines 196-198 return before either lookup runs). -/
theorem c7_existing_id_resolution (st : State) (aliases : List AliasElem)
    (declared : Option String) (filename : String)
    (h : ∃ b ∈ st.books, b.book_id = declared) :
    (_resolve_book_id st aliases declared filename).2 = declared ∧
    (_resolve_book_id st aliases declared filename).1.aliasIdIssues = st.aliasIdIssues ∧
    (_resolve_book_id st aliases declared filename).1.aliasResolveIssues =
      st.aliasResolveIssues := by
  obtain ⟨b, hb, hid⟩ := h
  cases hf : st.books.find? (fun x => x.book_id == declared) with
  | none =>
    exfalso
    have := List.find?_eq_none.mp hf b hb
    simp [hid] at this
  | some x =>
    unfold _resolve_book_id
    rw [hf]
    exact ⟨rfl, rfl, rfl⟩

/-- C7 witness: the test fixture's `book-1` resolved by its own id. -/
theorem c7_existing_id_resolution_witness :
    ((_resolve_book_id
      ⟨[⟨1, some "book-1", some "Book 1", none, "1.0"⟩], [], [], [], [], [], 2, 1⟩
      [⟨some "ISBN-10", some "1000000001"⟩] (some "book-1") "u.xml").2 = some "book-1") ∧
    ((_resolve_book_id
      ⟨[⟨1, some "book-1", some "Book 1", none, "1.0"⟩], [], [], [], [], [], 2, 1⟩
      [⟨some "ISBN-10", some "1000000001"⟩] (some "book-1") "u.xml").1.aliasIdIssues =
      ([] : List AliasUsedAsBookIdIssue)) :=
  ⟨(c7_existing_id_resolution _ _ _ _
      ⟨⟨1, some "book-1", some "Book 1", none, "1.0"⟩, by decide, rfl⟩).1,
   (c7_existing_id_resolution _ _ _ _
      ⟨⟨1, some "book-1", some "Book 1", none, "1.0"⟩, by decide, rfl⟩).2.1⟩

/-! ## Claims C8 and C10: version parsing, issue recording, and the uncaught
`float` on stored versions -/

theorem recordVersionIssue_mem (st : State) (bid : Option String) (f : String) :
    (⟨bid, f⟩ : VersionUnspecifiedIssue) ∈ (recordVersionIssue st bid f).versionIssues := by
  unfold recordVersionIssue
  split
  · next hc => simpa using hc
  · simp

/-- In the unparseable-version branch the returned state is exactly the state
after the issue write (`tools.py` lines 107-117 mutate nothing else). -/
theorem infer_state_unparsed (st : State) (bid : Option String) (f : String)
    (version : Option String) (h : pyFloatOpt version = none) :
    (_infer_book_version st bid f version).1 = recordVersionIssue st bid f := by
  unfold _infer_book_version
  rw [h]
  simp only []
  split
  · rfl
  · split <;> rfl

/-- `mapMOpt` fails exactly when the function fails somewhere. -/
theorem mapMOpt_eq_none {α β : Type} (f : α → Option β) (l : List α) :
    mapMOpt f l = none ↔ ∃ a ∈ l, f a = none := by
  induction l with
  | nil => simp [mapMOpt]
  | cons a l ih =>
    unfold mapMOpt
    cases hfa : f a with
    | none => exact iff_of_true rfl ⟨a, List.mem_cons_self a l, hfa⟩
    | some b =>
      cases hml : mapMOpt f l with
      | none =>
        obtain ⟨x, hx, hfx⟩ := ih.mp hml
        exact iff_of_true rfl ⟨x, List.mem_cons_of_mem a hx, hfx⟩
      | some bs =>
        constructor
        · intro hc; exact Option.noConfusion hc
        · rintro ⟨x, hx, hfx⟩
          rcases List.mem_cons.mp hx with rfl | hx
          · rw [hfa] at hfx; exact Option.noConfusion hfx
          · rw [ih.mpr ⟨x, hx, hfx⟩] at hml; exact Option.noConfusion hml

/-- C8: if the raw version text parses as a float, version inference returns
its canonical string form (`"1"` renders as `"1.0"`) and leaves the state —
in particular the `VersionUnspecifiedIssue` table — untouched; if it does not
parse (missing, empty or non-numeric), the issue row `(book_id, source_file)`
is present afterwards (recorded idempotently). -/
theorem c8_version_parse (st : State) (book_id : Option String) (filename : String)
    (version : Option String) :
    (∀ q, pyFloatOpt version = some q →
      _infer_book_version st book_id filename version = (st, .ok (pyStr q))) ∧
    (pyFloatOpt version = none →
      (⟨book_id, filename⟩ : VersionUnspecifiedIssue) ∈
        (_infer_book_version st book_id filename version).1.versionIssues) := by
  constructor
  · intro q hq
    unfold _infer_book_version
    rw [hq]
  · intro hq
    rw [infer_state_unparsed st book_id filename version hq]
    exact recordVersionIssue_mem st book_id filename

/-- C8 witness: with version text "1" the inference returns the canonical
"1.0" (not "1") without touching the state, and with version text "n/a" the
issue is recorded. -/
theorem c8_version_parse_witness :
    (_infer_book_version
        ⟨[], [], [], [], [], [], 1, 1⟩ (some "book-1") "u.xml" (some "1") =
      (⟨[], [], [], [], [], [], 1, 1⟩, .ok (pyStr (mkRat 1 1)))) ∧
    pyStr (mkRat 1 1) = "1.0" ∧
    (⟨some "book-1", "u.xml"⟩ : VersionUnspecifiedIssue) ∈
      (_infer_book_version
        ⟨[], [], [], [], [], [], 1, 1⟩ (some "book-1") "u.xml" (some "n/a")).1.versionIssues :=
  ⟨(c8_version_parse _ _ _ _).1 (mkRat 1 1) (by decide), by decide,
   (c8_version_parse _ _ _ _).2 (by decide)⟩

/-- C10: on unparseable version text, the sort key `lambda x: -float(x.version)`
applies `float` to the stored version of every existing book with the resolved
id.  The issue row is recorded first, and the step then raises (escapes the
function) exactly when some matching stored version fails to parse; if all of
them parse, it completes normally. -/
theorem c10_sort_float_totality (st : State) (book_id : Option String) (filename : String)
    (version : Option String) (h : pyFloatOpt version = none) :
    ((⟨book_id, filename⟩ : VersionUnspecifiedIssue) ∈
        (_infer_book_version st book_id filename version).1.versionIssues) ∧
    ((_infer_book_version st book_id filename version).2 = .exn ↔
      ∃ b ∈ st.books, b.book_id = book_id ∧ pyFloat b.version = none) := by
  constructor
  · rw [infer_state_unparsed st book_id filename version h]
    exact recordVersionIssue_mem st book_id filename
  · unfold _infer_book_version
    simp only [h, recordVersionIssue_books]
    split
    · next hemp =>
      constructor
      · intro hcontra; exact absurd hcontra (by simp)
      · rintro ⟨b, hb, hid, -⟩
        exfalso
        have hmem : b ∈ st.books.filter (fun x => x.book_id == book_id) :=
          List.mem_filter.mpr ⟨hb, by simp [hid]⟩
        rw [List.isEmpty_iff] at hemp
        rw [hemp] at hmem
        exact List.not_mem_nil b hmem
    · cases hmap : mapMOpt (fun x => pyFloat x.version)
          (st.books.filter (fun x => x.book_id == book_id)) with
      | none =>
        simp only [hmap]
        constructor
        · intro _
          obtain ⟨b, hbf, hnone⟩ := (mapMOpt_eq_none _ _).mp hmap
          obtain ⟨hb, hid⟩ := List.mem_filter.mp hbf
          exact ⟨b, hb, by simpa using hid, hnone⟩
        · intro _; trivial
      | some qs =>
        simp only [hmap]
        constructor
        · intro hcontra; exact absurd hcontra (by simp)
        · rintro ⟨b, hb, hid, hnone⟩
          exfalso
          have hbf : b ∈ st.books.filter (fun x => x.book_id == book_id) :=
            List.mem_filter.mpr ⟨hb, by simp [hid]⟩
          have hm : mapMOpt (fun x => pyFloat x.version)
              (st.books.filter (fun x => x.book_id == book_id)) = none :=
            (mapMOpt_eq_none _ _).mpr ⟨b, hbf, hnone⟩
          rw [hmap] at hm
          exact Option.noConfusion hm

/-- C10 witness: a catalog holding versions "1.0" and "n/a" of book "X": the
issue is recorded and the sort's `float` raises; and one holding only "1.0":
no exception. -/
theorem c10_sort_float_totality_witness :
    ((⟨some "X", "u.xml"⟩ : VersionUnspecifiedIssue) ∈
      (_infer_book_version
        ⟨[⟨1, some "X", some "T", none, "1.0"⟩, ⟨2, some "X", some "T", none, "n/a"⟩],
         [], [], [], [], [], 3, 1⟩ (some "X") "u.xml" none).1.versionIssues) ∧
    ((_infer_book_version
        ⟨[⟨1, some "X", some "T", none, "1.0"⟩, ⟨2, some "X", some "T", none, "n/a"⟩],
         [], [], [], [], [], 3, 1⟩ (some "X") "u.xml" none).2 = .exn) ∧
    ((_infer_book_version
        ⟨[⟨1, some "X", some "T", none, "1.0"⟩],
         [], [], [], [], [], 2, 1⟩ (some "X") "u.xml" none).2 = .ok "2.0") :=
  ⟨(c10_sort_float_totality _ _ _ _ (by decide)).1,
   (c10_sort_float_totality _ _ _ _ (by decide)).2.mpr
     ⟨⟨2, some "X", some "T", none, "n/a"⟩, by decide, rfl, by decide⟩,
   by decide⟩

/-! ## Evolution of the book table through alias reconciliation -/

theorem saveBook_books (st : State) (b : Book) :
    (saveBook st b).books = st.books.map (saveFun b) := rfl

theorem saveFun_idem (b x : Book) : saveFun b (saveFun b x) = saveFun b x := by
  unfold saveFun
  by_cases h : x.pk = b.pk <;> simp [h]

/-- Saving the same object twice (with book-preserving steps in between) is the
same as saving it once. -/
theorem saveBook_books_idem {st st' : State} (b : Book)
    (h : st'.books = st.books.map (saveFun b)) :
    (saveBook st' b).books = st.books.map (saveFun b) := by
  rw [saveBook_books, h, List.map_map]
  exact List.map_congr_left (fun x _ => saveFun_idem b x)

theorem processAliasElem_books (bid : Option String) (p : Nat) (f : String)
    (st : State) (ae : AliasElem) :
    (processAliasElem bid p f st ae).books = st.books := by
  unfold processAliasElem
  cases findAlias st ae.scheme ae.value with
  | none => exact bookAliasGetOrCreate_books ..
  | some a =>
    by_cases h : ownerBookId st a != bid
    · simp only [h, if_true]
      exact recordConflictIssue_books ..
    · simp only [h, if_false]
      exact bookAliasGetOrCreate_books ..

theorem foldl_processAliasElem_books (l : List AliasElem) (bid : Option String)
    (p : Nat) (f : String) (st : State) :
    (l.foldl (processAliasElem bid p f) st).books = st.books := by
  induction l generalizing st with
  | nil => rfl
  | cons ae rest ih =>
    rw [List.foldl_cons, ih, processAliasElem_books]

theorem foldl_aliasGetOrCreate_books (l : List (Option String × Option String))
    (p : Nat) (st : State) :
    (l.foldl (fun s pr => bookAliasGetOrCreate s p pr.1 pr.2) st).books = st.books := by
  induction l generalizing st with
  | nil => rfl
  | cons pr rest ih =>
    rw [List.foldl_cons, ih, bookAliasGetOrCreate_books]

/-- Alias reconciliation changes the book table exactly as a single save of the
processed book object does. -/
theorem process_book_aliases_books (st : State) (l : List AliasElem) (book : Book)
    (bid : Option String) (f : String) :
    (_process_book_aliases st l book bid f).books = st.books.map (saveFun book) := by
  unfold _process_book_aliases backfillStep
  have h2 : (saveBook (l.foldl (processAliasElem bid book.pk f) st) book).books =
      st.books.map (saveFun book) := by
    rw [saveBook_books, foldl_processAliasElem_books]
  split
  · exact h2
  · apply saveBook_books_idem
    rw [foldl_aliasGetOrCreate_books]
    exact h2

/-- On the successful path the whole of `process_book_element` changes the book
table by (possibly) appending the upserted row and then overwriting that row
with the processed book object. -/
theorem process_ok_books (st : State) (el : BookElement) (f : String)
    (version : String)
    (hv : (_infer_book_version (_resolve_book_id st el.aliases el.id f).1
        (_resolve_book_id st el.aliases el.id f).2 f el.version).2 = .ok version) :
    (process_book_element st el f).1.books =
      ((bookGetOrCreate
          (_infer_book_version (_resolve_book_id st el.aliases el.id f).1
            (_resolve_book_id st el.aliases el.id f).2 f el.version).1
          (_resolve_book_id st el.aliases el.id f).2 version).1.books).map
        (saveFun { (bookGetOrCreate
          (_infer_book_version (_resolve_book_id st el.aliases el.id f).1
            (_resolve_book_id st el.aliases el.id f).2 f el.version).1
          (_resolve_book_id st el.aliases el.id f).2 version).2 with
            title := el.title, description := el.description }) := by
  unfold process_book_element
  simp only [hv]
  apply saveBook_books_idem
  exact process_book_aliases_books ..

theorem bookGetOrCreate_mem (st : State) (bid : Option String) (v : String) :
    (bookGetOrCreate st bid v).2 ∈ (bookGetOrCreate st bid v).1.books := by
  unfold bookGetOrCreate
  cases hf : st.books.find? (fun b => b.book_id == bid && b.version == v) with
  | some b => simpa using List.mem_of_find?_eq_some hf
  | none => simp

theorem bookGetOrCreate_fields (st : State) (bid : Option String) (v : String) :
    (bookGetOrCreate st bid v).2.book_id = bid ∧ (bookGetOrCreate st bid v).2.version = v := by
  unfold bookGetOrCreate
  cases hf : st.books.find? (fun b => b.book_id == bid && b.version == v) with
  | some b =>
    have hp := List.find?_some hf
    simp only [Bool.and_eq_true, beq_iff_eq] at hp
    simpa using hp
  | none => exact ⟨rfl, rfl⟩

/-! ## Claim C4: no fail-fast validation of `declared_id`/`title`

The claim says a record missing the required `declared_id` or `title` fails
fast before any catalog write, with an invalid-input error distinct from a
catalog failure.  `process_book_element` performs no such validation: a record
with a missing title is processed to completion (resolution, version
inference, book upsert, alias writes), storing the NULL title on the row; the
only failure a missing title can provoke in the real system is the storage
layer's NOT NULL constraint at `book.save()` (`tools.py` line 156) — a catalog
failure raised AFTER the book row and alias writes, not a distinct
invalid-input error, and a missing `declared_id` needs no failure at all. -/

/-- C4 counterexample: processing a record whose required title is missing
does not fail fast and performs a catalog write: it completes normally and
creates the book row (with NULL title). -/
theorem c4_no_fail_fast_cex :
    c4Element.title = none ∧
    (process_book_element emptyState c4Element "f.xml").2 = .ok () ∧
    (process_book_element emptyState c4Element "f.xml").1.books =
      [⟨1, some "N", none, none, "1.0"⟩] := by decide

/-- C4 amended: the core performs no validation of `declared_id` or `title`.
Whenever processing a record with a missing title or missing declared id does
not raise (and the only raise in the core is the unrelated version-inference
`float`, cf. C10), the book upsert has been performed: the processed row —
carrying the record's missing title and the resolved id — is in the catalog.
Any NOT NULL failure belongs to the storage layer, after these writes. -/
theorem c4_no_validation_amended (st : State) (el : BookElement) (f : String)
    (_hmiss : el.title = none ∨ el.id = none)
    (hok : (process_book_element st el f).2 = .ok ()) :
    ∃ bk, processedBook st el f = some bk ∧
      bk ∈ (process_book_element st el f).1.books ∧
      bk.title = el.title ∧
      bk.book_id = (_resolve_book_id st el.aliases el.id f).2 := by
  cases hv : (_infer_book_version (_resolve_book_id st el.aliases el.id f).1
      (_resolve_book_id st el.aliases el.id f).2 f el.version).2 with
  | exn =>
    exfalso
    unfold process_book_element at hok
    simp only [hv] at hok
    exact PyResult.noConfusion hok
  | ok version =>
    refine ⟨{ (bookGetOrCreate
        (_infer_book_version (_resolve_book_id st el.aliases el.id f).1
          (_resolve_book_id st el.aliases el.id f).2 f el.version).1
        (_resolve_book_id st el.aliases el.id f).2 version).2 with
          title := el.title, description := el.description }, ?_, ?_, rfl, ?_⟩
    · unfold processedBook
      simp only [hv]
    · rw [process_ok_books st el f version hv]
      refine List.mem_map.mpr ⟨(bookGetOrCreate _ _ _).2, bookGetOrCreate_mem .., ?_⟩
      unfold saveFun
      rw [if_pos (by simp)]
    · exact (bookGetOrCreate_fields ..).1

/-- C4 amended, witness: the record with id "N", version "1.0" and no title,
on the empty catalog. -/
theorem c4_no_validation_amended_witness :
    ∃ bk, processedBook emptyState c4Element "f.xml" = some bk ∧
      bk ∈ (process_book_element emptyState c4Element "f.xml").1.books ∧
      bk.title = c4Element.title ∧
      bk.book_id = (_resolve_book_id emptyState c4Element.aliases c4Element.id "f.xml").2 :=
  c4_no_validation_amended emptyState c4Element "f.xml" (Or.inl rfl) (by decide)

/-! ## Alias-pair lemmas for the backfill step -/

theorem aliasPairs_congr {st st' : State} (h : st'.aliases = st.aliases) (q : Nat) :
    aliasPairs st' q = aliasPairs st q := by
  unfold aliasPairs; rw [h]

theorem aliasPairs_getOrCreate_other {q p : Nat} (hq : q ≠ p) (st : State)
    (s v : Option String) :
    aliasPairs (bookAliasGetOrCreate st p s v) q = aliasPairs st q := by
  unfold bookAliasGetOrCreate
  split
  · rfl
  · unfold aliasPairs
    simp only [List.filter_append, List.map_append]
    have hnew : List.filter (fun a => a.bookPk == q)
        [(⟨st.nextAliasPk, p, s, v⟩ : BookAlias)] = [] := by
      simp [Ne.symm hq]
    rw [hnew, List.map_nil, List.append_nil]

theorem aliasPairs_getOrCreate_mono (st : State) (p : Nat) (s v : Option String) (q : Nat)
    {x : Option String × Option String} (hx : x ∈ aliasPairs st q) :
    x ∈ aliasPairs (bookAliasGetOrCreate st p s v) q := by
  unfold bookAliasGetOrCreate
  split
  · exact hx
  · unfold aliasPairs at hx ⊢
    simp only [List.filter_append, List.map_append]
    exact List.mem_append_left _ hx

theorem aliasPairs_getOrCreate_self (st : State) (p : Nat) (s v : Option String) :
    (s, v) ∈ aliasPairs (bookAliasGetOrCreate st p s v) p := by
  unfold bookAliasGetOrCreate
  split
  · next hc =>
    rw [List.any_eq_true] at hc
    obtain ⟨a, ha, hpred⟩ := hc
    simp only [Bool.and_eq_true, beq_iff_eq] at hpred
    unfold aliasPairs
    refine List.mem_map.mpr ⟨a, List.mem_filter.mpr ⟨ha, by simp [hpred.1.1]⟩, ?_⟩
    rw [hpred.1.2, hpred.2]
  · unfold aliasPairs
    simp

theorem aliasPairs_foldl_getOrCreate_other {q p : Nat} (hq : q ≠ p)
    (l : List (Option String × Option String)) (st : State) :
    aliasPairs (l.foldl (fun s pr => bookAliasGetOrCreate s p pr.1 pr.2) st) q =
      aliasPairs st q := by
  induction l generalizing st with
  | nil => rfl
  | cons pr rest ih => rw [List.foldl_cons, ih, aliasPairs_getOrCreate_other hq]

theorem aliasPairs_foldl_getOrCreate_mono
    (l : List (Option String × Option String)) (p q : Nat) (st : State)
    {x : Option String × Option String} (hx : x ∈ aliasPairs st q) :
    x ∈ aliasPairs (l.foldl (fun s pr => bookAliasGetOrCreate s p pr.1 pr.2) st) q := by
  induction l generalizing st with
  | nil => exact hx
  | cons pr rest ih =>
    rw [List.foldl_cons]
    exact ih _ (aliasPairs_getOrCreate_mono _ _ _ _ _ hx)

theorem aliasPairs_foldl_getOrCreate_adds
    (l : List (Option String × Option String)) (p : Nat) (st : State) :
    ∀ x ∈ l, x ∈ aliasPairs (l.foldl (fun s pr => bookAliasGetOrCreate s p pr.1 pr.2) st) p := by
  induction l generalizing st with
  | nil => intro x hx; exact absurd hx (List.not_mem_nil x)
  | cons pr rest ih =>
    intro x hx
    rw [List.foldl_cons]
    rcases List.mem_cons.mp hx with rfl | hx
    · exact aliasPairs_foldl_getOrCreate_mono _ _ _ _ (aliasPairs_getOrCreate_self st p x.1 x.2)
    · exact ih _ x hx

/-- The backfill guarantee `_process_book_aliases` actually provides: after the
step, the alias pairs of the row returned by
`Book.objects.filter(book_id=...).first()` — the (title, version)-least row —
are a subset of the processed book's alias pairs. -/
theorem process_book_aliases_backfill (st : State) (l : List AliasElem) (book : Book)
    (bid : Option String) (f : String) (eb : Book)
    (heb : firstBook (((saveBook (l.foldl (processAliasElem bid book.pk f) st) book).books).filter
        (fun b => b.book_id == bid)) = some eb) :
    ∀ x ∈ aliasPairs (_process_book_aliases st l book bid f) eb.pk,
      x ∈ aliasPairs (_process_book_aliases st l book bid f) book.pk := by
  intro x hx
  unfold _process_book_aliases backfillStep at hx ⊢
  simp only [heb] at hx ⊢
  rw [aliasPairs_congr (saveBook_aliases ..)] at hx ⊢
  set stS := saveBook (l.foldl (processAliasElem bid book.pk f) st) book with hstS
  set ms := (aliasPairs stS eb.pk).filter
      (fun p => !((aliasPairs stS book.pk).contains p)) with hms
  by_cases hpk : eb.pk = book.pk
  · rw [hpk] at hx
    exact hx
  · rw [aliasPairs_foldl_getOrCreate_other hpk] at hx
    by_cases hin : x ∈ aliasPairs stS book.pk
    · exact aliasPairs_foldl_getOrCreate_mono _ _ _ _ hin
    · apply aliasPairs_foldl_getOrCreate_adds
      rw [hms]
      refine List.mem_filter.mpr ⟨hx, ?_⟩
      simp only [Bool.not_eq_eq_eq_not, Bool.not_true, List.contains_eq_any_beq]
      rw [List.any_eq_false]
      intro y hy
      simp only [beq_iff_eq]
      intro hxy
      exact hin (hxy ▸ hy)

/-! ## Claim C3: backfill of aliases from an earlier version

The claim says an alias present on an earlier-version row of book X and
omitted from the incoming record is preserved on the new version's row.  The
backfill source is `Book.objects.filter(book_id=book_id).first()` — the
(title, version)-least row among ALL rows with that `book_id`, the freshly
upserted row included.  When the new row itself sorts first (e.g. its title
sorts before the earlier version's title), the backfill is a no-op and the
alias is lost. -/

/-- C3 counterexample: the earlier-version row carries (P, V), the record
omits it, processing succeeds and creates the version-2.0 row — but the new
row carries NO aliases, because the backfill source `filter(book_id).first()`
is the new row itself (title "A" < "B"). -/
theorem c3_backfill_cex :
    (process_book_element c3State c3Element "f.xml").2 = .ok () ∧
    (some "P", some "V") ∈ aliasPairs (process_book_element c3State c3Element "f.xml").1 1 ∧
    ⟨2, some "X", some "A", none, "2.0"⟩ ∈
      (process_book_element c3State c3Element "f.xml").1.books ∧
    aliasPairs (process_book_element c3State c3Element "f.xml").1 2 = [] := by decide

/-- C3 amended: the backfill copies onto the new row the alias pairs of the
(title, version)-least catalog row with the resolved `book_id` (the new row
included), not those of an arbitrary earlier version: after processing, that
least row's alias pairs are a subset of the processed row's.  The claim as
stated holds exactly when the earlier-version row carrying the alias is that
least row. -/
theorem c3_backfill_amended (st : State) (el : BookElement) (f : String) (bk : Book)
    (hbk : processedBook st el f = some bk) (eb : Book)
    (heb : firstBook ((process_book_element st el f).1.books.filter
        (fun b => b.book_id == (_resolve_book_id st el.aliases el.id f).2)) = some eb) :
    ∀ x ∈ aliasPairs (process_book_element st el f).1 eb.pk,
      x ∈ aliasPairs (process_book_element st el f).1 bk.pk := by
  cases hv : (_infer_book_version (_resolve_book_id st el.aliases el.id f).1
      (_resolve_book_id st el.aliases el.id f).2 f el.version).2 with
  | exn =>
    unfold processedBook at hbk
    simp only [hv] at hbk
    exact Option.noConfusion hbk
  | ok version =>
    have hbkdef : bk = { (bookGetOrCreate
        (_infer_book_version (_resolve_book_id st el.aliases el.id f).1
          (_resolve_book_id st el.aliases el.id f).2 f el.version).1
        (_resolve_book_id st el.aliases el.id f).2 version).2 with
          title := el.title, description := el.description } := by
      unfold processedBook at hbk
      simp only [hv] at hbk
      exact (Option.some.inj hbk).symm
    intro x hx
    unfold process_book_element at heb hx ⊢
    simp only [hv] at heb hx ⊢
    rw [aliasPairs_congr (saveBook_aliases ..)] at hx ⊢
    rw [hbkdef]
    have hbooks :
        (saveBook (_process_book_aliases
            (bookGetOrCreate
              (_infer_book_version (_resolve_book_id st el.aliases el.id f).1
                (_resolve_book_id st el.aliases el.id f).2 f el.version).1
              (_resolve_book_id st el.aliases el.id f).2 version).1
            el.aliases
            { (bookGetOrCreate
                (_infer_book_version (_resolve_book_id st el.aliases el.id f).1
                  (_resolve_book_id st el.aliases el.id f).2 f el.version).1
                (_resolve_book_id st el.aliases el.id f).2 version).2 with
                title := el.title, description := el.description }
            (_resolve_book_id st el.aliases el.id f).2 f)
          { (bookGetOrCreate
              (_infer_book_version (_resolve_book_id st el.aliases el.id f).1
                (_resolve_book_id st el.aliases el.id f).2 f el.version).1
              (_resolve_book_id st el.aliases el.id f).2 version).2 with
              title := el.title, description := el.description }).books =
        (saveBook (el.aliases.foldl (processAliasElem
            (_resolve_book_id st el.aliases el.id f).2
            ({ (bookGetOrCreate
                (_infer_book_version (_resolve_book_id st el.aliases el.id f).1
                  (_resolve_book_id st el.aliases el.id f).2 f el.version).1
                (_resolve_book_id st el.aliases el.id f).2 version).2 with
                title := el.title, description := el.description } : Book).pk f)
            (bookGetOrCreate
              (_infer_book_version (_resolve_book_id st el.aliases el.id f).1
                (_resolve_book_id st el.aliases el.id f).2 f el.version).1
              (_resolve_book_id st el.aliases el.id f).2 version).1)
          { (bookGetOrCreate
              (_infer_book_version (_resolve_book_id st el.aliases el.id f).1
                (_resolve_book_id st el.aliases el.id f).2 f el.version).1
              (_resolve_book_id st el.aliases el.id f).2 version).2 with
              title := el.title, description := el.description }).books := by
      rw [saveBook_books, process_book_aliases_books, List.map_map,
        saveBook_books, foldl_processAliasElem_books]
      exact List.map_congr_left (fun y _ => saveFun_idem _ y)
    rw [hbooks] at heb
    exact process_book_aliases_backfill _ _ _ _ _ _ heb x hx

/-- C3 amended, witness: same-title update of "X" from 1.0 (owning (P, V)) to
2.0 — the least row is the earlier version, and its alias pairs all appear on
the new row. -/
theorem c3_backfill_amended_witness :
    (some "P", some "V") ∈ aliasPairs (process_book_element
        ⟨[⟨1, some "X", some "T", none, "1.0"⟩], [⟨1, 1, some "P", some "V"⟩],
         [], [], [], [], 2, 2⟩
        ⟨some "X", some "T", none, some "2.0", []⟩ "g.xml").1
        (⟨2, some "X", some "T", none, "2.0"⟩ : Book).pk :=
  c3_backfill_amended
    ⟨[⟨1, some "X", some "T", none, "1.0"⟩], [⟨1, 1, some "P", some "V"⟩],
     [], [], [], [], 2, 2⟩
    ⟨some "X", some "T", none, some "2.0", []⟩ "g.xml"
    ⟨2, some "X", some "T", none, "2.0"⟩ (by decide)
    ⟨1, some "X", some "T", none, "1.0"⟩ (by decide)
    (some "P", some "V") (by decide)

/-! ## Well-formedness and generic query lemmas -/

theorem find?_eq_head?_filter {α : Type} (p : α → Bool) (l : List α) :
    l.find? p = (l.filter p).head? := by
  induction l with
  | nil => rfl
  | cons a l ih =>
    by_cases h : p a
    · rw [List.find?_cons_of_pos _ h, List.filter_cons_of_pos h]
      rfl
    · rw [List.find?_cons_of_neg _ (by simpa using h),
        List.filter_cons_of_neg (by simpa using h), ih]

/-- Two lists with the same filtrate have the same first match. -/
theorem find?_congr_of_filter {α : Type} (p : α → Bool) {l₁ l₂ : List α}
    (h : l₁.filter p = l₂.filter p) : l₁.find? p = l₂.find? p := by
  rw [find?_eq_head?_filter, find?_eq_head?_filter, h]

theorem firstBook_aux_mem (l : List Book) (acc : Option Book) (b : Book)
    (h : l.foldl
      (fun acc x =>
        match acc with
        | none => some x
        | some a => if bookOrdLt x a then some x else acc) acc = some b) :
    acc = some b ∨ b ∈ l := by
  induction l generalizing acc with
  | nil => exact Or.inl h
  | cons x xs ih =>
    rw [List.foldl_cons] at h
    rcases ih _ h with hstep | hmem
    · cases acc with
      | none =>
        simp only [] at hstep
        exact Or.inr (List.mem_cons.mpr (Or.inl (Option.some.inj hstep).symm))
      | some a =>
        simp only [] at hstep
        by_cases hlt : bookOrdLt x a
        · rw [if_pos hlt] at hstep
          exact Or.inr (List.mem_cons.mpr (Or.inl (Option.some.inj hstep).symm))
        · rw [if_neg hlt] at hstep
          exact Or.inl hstep
    · exact Or.inr (List.mem_cons_of_mem x hmem)

theorem firstBook_mem {l : List Book} {b : Book} (h : firstBook l = some b) : b ∈ l := by
  rcases firstBook_aux_mem l none b h with hacc | hmem
  · exact Option.noConfusion hacc
  · exact hmem

/-- `find?` over an appended list when the prefix already matches. -/
theorem find?_append_of_isSome {α : Type} (p : α → Bool) (l₁ l₂ : List α)
    (h : (l₁.find? p).isSome) : (l₁ ++ l₂).find? p = l₁.find? p := by
  induction l₁ with
  | nil => simp at h
  | cons a l ih =>
    by_cases hp : p a
    · rw [List.cons_append, List.find?_cons_of_pos _ hp, List.find?_cons_of_pos _ hp]
    · rw [List.find?_cons_of_neg _ (by simpa using hp)] at h
      rw [List.cons_append, List.find?_cons_of_neg _ (by simpa using hp),
        List.find?_cons_of_neg _ (by simpa using hp)]
      exact ih h

/-- With distinct pks, the pk lookup finds exactly the owning row. -/
theorem find?_pk_unique {l : List Book} (hpk : l.Pairwise (fun a b => a.pk ≠ b.pk))
    {b : Book} (hb : b ∈ l) (k : Nat) (hk : b.pk = k) :
    l.find? (fun x => x.pk == k) = some b := by
  induction l with
  | nil => cases hb
  | cons x xs ih =>
    rcases List.pairwise_cons.mp hpk with ⟨hx, hxs⟩
    rcases List.mem_cons.mp hb with rfl | hbm
    · rw [List.find?_cons_of_pos]
      simp [hk]
    · by_cases hxk : x.pk = k
      · exact absurd (by rw [hxk, ← hk]) (hx b hbm)
      · rw [List.find?_cons_of_neg _ (by simp [hxk])]
        exact ih hxs hbm

theorem ownerBookId_of_owner {st : State}
    (hpk : st.books.Pairwise (fun a b => a.pk ≠ b.pk))
    {b : Book} (hb : b ∈ st.books) {al : BookAlias} (hal : al.bookPk = b.pk) :
    ownerBookId st al = b.book_id := by
  unfold ownerBookId findBookByPk
  rw [find?_pk_unique hpk hb al.bookPk hal.symm]
  rfl

/-! ## Shape lemmas: which state fields each operation can touch -/

theorem recordAliasIdIssue_shape (st : State) (a b : Nat) (f : String) :
    ∃ x, recordAliasIdIssue st a b f = { st with aliasIdIssues := x } := by
  unfold recordAliasIdIssue
  split
  · exact ⟨st.aliasIdIssues, rfl⟩
  · exact ⟨_, rfl⟩

theorem recordAliasResolveIssue_shape (st : State) (a b : Nat) (f : String) :
    ∃ x, recordAliasResolveIssue st a b f = { st with aliasResolveIssues := x } := by
  unfold recordAliasResolveIssue
  split
  · exact ⟨st.aliasResolveIssues, rfl⟩
  · exact ⟨_, rfl⟩

theorem fetch_by_scheme_shape (st : State) (scheme f : String) (v : Option String) :
    ∃ x, (_fetch_book_id_by_scheme st scheme f v).1 = { st with aliasIdIssues := x } := by
  unfold _fetch_book_id_by_scheme
  cases findAlias st (some scheme) v with
  | none => exact ⟨st.aliasIdIssues, rfl⟩
  | some a => exact recordAliasIdIssue_shape ..

theorem fetch_by_aliases_shape (st : State) (l : List AliasElem) (f : String) :
    ∃ y, (_fetch_book_id_by_aliases st l f).1 = { st with aliasResolveIssues := y } := by
  induction l with
  | nil => exact ⟨st.aliasResolveIssues, rfl⟩
  | cons ae rest ih =>
    unfold _fetch_book_id_by_aliases
    cases findAlias st ae.scheme ae.value with
    | some a => exact recordAliasResolveIssue_shape ..
    | none => exact ih

/-- Identifier resolution only appends to the two resolution-issue tables. -/
theorem resolve_shape (st : State) (l : List AliasElem) (bid : Option String) (f : String) :
    ∃ x y, (_resolve_book_id st l bid f).1 =
      { st with aliasIdIssues := x, aliasResolveIssues := y } := by
  unfold _resolve_book_id
  cases st.books.find? (fun b => b.book_id == bid) with
  | some b => exact ⟨st.aliasIdIssues, st.aliasResolveIssues, rfl⟩
  | none =>
    simp only []
    obtain ⟨x1, h1⟩ := fetch_by_scheme_shape st "ISBN-10" f bid
    obtain ⟨x2, h2⟩ := fetch_by_scheme_shape
      (_fetch_book_id_by_scheme st "ISBN-10" f bid).1 "ISBN-13" f bid
    have h2' : (_fetch_book_id_by_scheme
        (_fetch_book_id_by_scheme st "ISBN-10" f bid).1 "ISBN-13" f bid).1 =
        { st with aliasIdIssues := x2 } := by rw [h2, h1]
    obtain ⟨y, h3⟩ := fetch_by_aliases_shape
      (_fetch_book_id_by_scheme
        (_fetch_book_id_by_scheme st "ISBN-10" f bid).1 "ISBN-13" f bid).1 l f
    have h3' : (_fetch_book_id_by_aliases
        (_fetch_book_id_by_scheme
          (_fetch_book_id_by_scheme st "ISBN-10" f bid).1 "ISBN-13" f bid).1 l f).1 =
        { st with aliasIdIssues := x2, aliasResolveIssues := y } := by rw [h3, h2']
    split
    · exact ⟨x1, st.aliasResolveIssues, h1⟩
    · split
      · exact ⟨x2, st.aliasResolveIssues, h2'⟩
      · split
        · exact ⟨x2, y, h3'⟩
        · exact ⟨x2, y, h3'⟩

/-- Version inference only appends to the version-issue table. -/
theorem infer_shape (st : State) (bid : Option String) (f : String) (v : Option String) :
    ∃ z, (_infer_book_version st bid f v).1 = { st with versionIssues := z } := by
  unfold _infer_book_version
  cases pyFloatOpt v with
  | some q => exact ⟨st.versionIssues, rfl⟩
  | none =>
    have hrec : ∃ z, recordVersionIssue st bid f = { st with versionIssues := z } := by
      unfold recordVersionIssue
      split
      · exact ⟨st.versionIssues, rfl⟩
      · exact ⟨_, rfl⟩
    obtain ⟨z, hz⟩ := hrec
    simp only []
    split
    · exact ⟨z, hz⟩
    · split <;> exact ⟨z, hz⟩

/-- The upsert only touches the book table and its pk counter. -/
theorem bookGetOrCreate_shape (st : State) (bid : Option String) (v : String) :
    ∃ bl n, (bookGetOrCreate st bid v).1 = { st with books := bl, nextBookPk := n } := by
  unfold bookGetOrCreate
  cases st.books.find? (fun b => b.book_id == bid && b.version == v) with
  | some b => exact ⟨st.books, st.nextBookPk, rfl⟩
  | none => exact ⟨_, _, rfl⟩

/-- The two possible outcomes of the upsert. -/
theorem bookGetOrCreate_books_cases (st : State) (bid : Option String) (v : String) :
    ((bookGetOrCreate st bid v).1.books = st.books ∧ (bookGetOrCreate st bid v).2 ∈ st.books)
    ∨ ((bookGetOrCreate st bid v).1.books = st.books ++ [(bookGetOrCreate st bid v).2] ∧
        (bookGetOrCreate st bid v).2.pk = st.nextBookPk ∧
        st.books.find? (fun b => b.book_id == bid && b.version == v) = none) := by
  unfold bookGetOrCreate
  cases hf : st.books.find? (fun b => b.book_id == bid && b.version == v) with
  | some b => exact Or.inl ⟨rfl, List.mem_of_find?_eq_some hf⟩
  | none => exact Or.inr ⟨rfl, rfl, rfl⟩

theorem bookGetOrCreate_aliases (st : State) (bid : Option String) (v : String) :
    (bookGetOrCreate st bid v).1.aliases = st.aliases := by
  unfold bookGetOrCreate
  cases st.books.find? (fun b => b.book_id == bid && b.version == v) <;> rfl

theorem bookAliasGetOrCreate_conflictIssues (st : State) (p : Nat) (s v : Option String) :
    (bookAliasGetOrCreate st p s v).conflictIssues = st.conflictIssues := by
  unfold bookAliasGetOrCreate
  split <;> rfl

theorem foldl_getOrCreate_conflictIssues (ms : List (Option String × Option String))
    (p : Nat) (s : State) :
    (ms.foldl (fun s pr => bookAliasGetOrCreate s p pr.1 pr.2) s).conflictIssues =
      s.conflictIssues := by
  induction ms generalizing s with
  | nil => rfl
  | cons pr rest ih =>
    rw [List.foldl_cons, ih, bookAliasGetOrCreate_conflictIssues]

/-- A get-or-create for a pair that is not the tracked one leaves the tracked
pair's filtrate of the alias table unchanged. -/
theorem getOrCreate_filter_pairMatch (st : State) (p : Nat) (ae : AliasElem)
    {s v : Option String} (hne : ¬(s = ae.scheme ∧ v = ae.value)) :
    (bookAliasGetOrCreate st p s v).aliases.filter (pairMatch ae) =
      st.aliases.filter (pairMatch ae) := by
  unfold bookAliasGetOrCreate
  split
  · rfl
  · simp only [List.filter_append]
    have hnew : List.filter (pairMatch ae) [(⟨st.nextAliasPk, p, s, v⟩ : BookAlias)] = [] := by
      simp only [List.filter_eq_nil_iff, List.mem_singleton]
      rintro a rfl
      unfold pairMatch
      simp only [Bool.and_eq_true, beq_iff_eq]
      exact fun h => hne ⟨h.1, h.2⟩
    rw [hnew, List.append_nil]

theorem foldl_getOrCreate_filter_pairMatch (ms : List (Option String × Option String))
    (p : Nat) (ae : AliasElem)
    (hms : ∀ pr ∈ ms, ¬(pr.1 = ae.scheme ∧ pr.2 = ae.value)) (s : State) :
    (ms.foldl (fun s pr => bookAliasGetOrCreate s p pr.1 pr.2) s).aliases.filter
      (pairMatch ae) = s.aliases.filter (pairMatch ae) := by
  induction ms generalizing s with
  | nil => rfl
  | cons pr rest ih =>
    rw [List.foldl_cons,
      ih (fun x hx => hms x (List.mem_cons_of_mem pr hx)),
      getOrCreate_filter_pairMatch _ _ _ (hms pr (List.mem_cons_self pr rest))]

theorem recordConflictIssue_mem_mono (st : State) (p : Nat) (sch v : Option String)
    (f : String) {x : AliasPointsToConflictingBookIssue} (hx : x ∈ st.conflictIssues) :
    x ∈ (recordConflictIssue st p sch v f).conflictIssues := by
  unfold recordConflictIssue
  split
  · exact hx
  · exact List.mem_append_left _ hx

theorem processAliasElem_eq_none {s : State} {ae' : AliasElem}
    (hfa : findAlias s ae'.scheme ae'.value = none) (R : Option String) (p : Nat)
    (f : String) :
    processAliasElem R p f s ae' = bookAliasGetOrCreate s p ae'.scheme ae'.value := by
  unfold processAliasElem
  rw [hfa]

theorem processAliasElem_eq_some {s : State} {ae' : AliasElem} {a : BookAlias}
    (hfa : findAlias s ae'.scheme ae'.value = some a) (R : Option String) (p : Nat)
    (f : String) :
    processAliasElem R p f s ae' =
      if (ownerBookId s a != R) = true then
        recordConflictIssue s a.bookPk ae'.scheme ae'.value f
      else bookAliasGetOrCreate s p ae'.scheme ae'.value := by
  unfold processAliasElem
  rw [hfa]

theorem processAliasElem_conflict_mem (R : Option String) (p : Nat) (f : String)
    (s : State) (ae' : AliasElem) {x : AliasPointsToConflictingBookIssue}
    (hx : x ∈ s.conflictIssues) :
    x ∈ (processAliasElem R p f s ae').conflictIssues := by
  cases hfa : findAlias s ae'.scheme ae'.value with
  | none =>
    rw [processAliasElem_eq_none hfa, bookAliasGetOrCreate_conflictIssues]
    exact hx
  | some a =>
    rw [processAliasElem_eq_some hfa]
    by_cases ho : (ownerBookId s a != R) = true
    · rw [if_pos ho]
      exact recordConflictIssue_mem_mono _ _ _ _ _ hx
    · rw [if_neg ho, bookAliasGetOrCreate_conflictIssues]
      exact hx

/-- One loop iteration preserves the conflict invariant; processing the
conflicting pair itself additionally guarantees the issue tuple is present. -/
theorem conflictInv_step (st stM : State) (ae : AliasElem) (a0 : BookAlias)
    (R : Option String) (f : String) (p : Nat)
    (hex : findAlias st ae.scheme ae.value = some a0)
    (howner : ownerBookId stM a0 ≠ R)
    {s : State} (inv : ConflictInv st stM ae ⟨a0.bookPk, ae.scheme, ae.value, f⟩ s)
    (ae' : AliasElem) :
    ConflictInv st stM ae ⟨a0.bookPk, ae.scheme, ae.value, f⟩
      (processAliasElem R p f s ae') ∧
    (ae' = ae →
      (⟨a0.bookPk, ae.scheme, ae.value, f⟩ : AliasPointsToConflictingBookIssue) ∈
        (processAliasElem R p f s ae').conflictIssues) := by
  have hfs : findAlias s ae.scheme ae.value = some a0 := by
    have hpe : s.aliases.filter (fun al => al.scheme == ae.scheme && al.value == ae.value) =
        st.aliases.filter (fun al => al.scheme == ae.scheme && al.value == ae.value) :=
      inv.pairsEq
    have := find?_congr_of_filter
      (fun al : BookAlias => al.scheme == ae.scheme && al.value == ae.value) hpe
    unfold findAlias at hex ⊢
    rw [this]
    exact hex
  have howner_s : ownerBookId s a0 ≠ R := by
    rw [ownerBookId_congr inv.booksEq]
    exact howner
  by_cases heq : ae' = ae
  · subst heq
    rw [processAliasElem_eq_some hfs, if_pos (bne_iff_ne.mpr howner_s)]
    unfold recordConflictIssue
    split
    · next hc =>
      refine ⟨⟨inv.pairsEq, inv.booksEq, inv.cnt, inv.ext⟩, fun _ => ?_⟩
      simpa using hc
    · next hc =>
      have hnotmem : (⟨a0.bookPk, ae'.scheme, ae'.value, f⟩ :
          AliasPointsToConflictingBookIssue) ∉ s.conflictIssues := by
        intro hm
        exact hc (by simpa using hm)
      have hcnt0 : s.conflictIssues.count ⟨a0.bookPk, ae'.scheme, ae'.value, f⟩ = 0 :=
        List.count_eq_zero.mpr hnotmem
      have hst0 : st.conflictIssues.count ⟨a0.bookPk, ae'.scheme, ae'.value, f⟩ = 0 := by
        obtain ⟨t, ht⟩ := inv.ext
        rcases inv.cnt with hcc | ⟨hcc, h0⟩
        · rw [← hcc]; exact hcnt0
        · exact h0
      refine ⟨⟨?_, inv.booksEq, ?_, ?_⟩, fun _ => ?_⟩
      · exact inv.pairsEq
      · right
        constructor
        · simp only [List.count_append, hcnt0, hst0]
          simp
        · exact hst0
      · obtain ⟨t, ht⟩ := inv.ext
        exact ⟨t ++ [⟨a0.bookPk, ae'.scheme, ae'.value, f⟩], by rw [ht, List.append_assoc]⟩
      · simp
  · have hne : ¬(ae'.scheme = ae.scheme ∧ ae'.value = ae.value) := by
      rintro ⟨h1, h2⟩
      apply heq
      cases ae'
      cases ae
      simp_all
    cases hfa' : findAlias s ae'.scheme ae'.value with
    | none =>
      rw [processAliasElem_eq_none hfa']
      refine ⟨⟨?_, ?_, ?_, ?_⟩, fun h => absurd h heq⟩
      · rw [getOrCreate_filter_pairMatch _ _ _ hne]
        exact inv.pairsEq
      · rw [bookAliasGetOrCreate_books]
        exact inv.booksEq
      · rw [bookAliasGetOrCreate_conflictIssues]
        exact inv.cnt
      · rw [bookAliasGetOrCreate_conflictIssues]
        exact inv.ext
    | some a' =>
      rw [processAliasElem_eq_some hfa']
      by_cases ho : (ownerBookId s a' != R) = true
      · rw [if_pos ho]
        have htne : (⟨a'.bookPk, ae'.scheme, ae'.value, f⟩ :
            AliasPointsToConflictingBookIssue) ≠ ⟨a0.bookPk, ae.scheme, ae.value, f⟩ := by
          intro hT
          injection hT with _ h1 h2 _
          exact hne ⟨h1, h2⟩
        unfold recordConflictIssue
        split
        · exact ⟨⟨inv.pairsEq, inv.booksEq, inv.cnt, inv.ext⟩, fun h => absurd h heq⟩
        · refine ⟨⟨inv.pairsEq, inv.booksEq, ?_, ?_⟩, fun h => absurd h heq⟩
          · have hz : List.count (⟨a0.bookPk, ae.scheme, ae.value, f⟩ :
                AliasPointsToConflictingBookIssue)
                [⟨a'.bookPk, ae'.scheme, ae'.value, f⟩] = 0 :=
              List.count_eq_zero.mpr (by simp [Ne.symm htne])
            simp only [List.count_append, hz, Nat.add_zero]
            exact inv.cnt
          · obtain ⟨t, ht⟩ := inv.ext
            exact ⟨t ++ [⟨a'.bookPk, ae'.scheme, ae'.value, f⟩], by rw [ht, List.append_assoc]⟩
      · rw [if_neg ho]
        refine ⟨⟨?_, ?_, ?_, ?_⟩, fun h => absurd h heq⟩
        · rw [getOrCreate_filter_pairMatch _ _ _ hne]
          exact inv.pairsEq
        · rw [bookAliasGetOrCreate_books]
          exact inv.booksEq
        · rw [bookAliasGetOrCreate_conflictIssues]
          exact inv.cnt
        · rw [bookAliasGetOrCreate_conflictIssues]
          exact inv.ext

theorem bookGetOrCreate_conflictIssues (st : State) (bid : Option String) (v : String) :
    (bookGetOrCreate st bid v).1.conflictIssues = st.conflictIssues := by
  unfold bookGetOrCreate
  cases st.books.find? (fun b => b.book_id == bid && b.version == v) <;> rfl

theorem saveBook_conflictIssues (st : State) (b : Book) :
    (saveBook st b).conflictIssues = st.conflictIssues := rfl

/-- The whole alias loop preserves the conflict invariant, and guarantees the
tuple once the conflicting pair has been processed. -/
theorem conflictInv_foldl (st stM : State) (ae : AliasElem) (a0 : BookAlias)
    (R : Option String) (f : String) (p : Nat)
    (hex : findAlias st ae.scheme ae.value = some a0)
    (howner : ownerBookId stM a0 ≠ R)
    (l : List AliasElem) {s : State}
    (inv : ConflictInv st stM ae ⟨a0.bookPk, ae.scheme, ae.value, f⟩ s) :
    ConflictInv st stM ae ⟨a0.bookPk, ae.scheme, ae.value, f⟩
      (l.foldl (processAliasElem R p f) s) ∧
    ((ae ∈ l ∨ (⟨a0.bookPk, ae.scheme, ae.value, f⟩ :
        AliasPointsToConflictingBookIssue) ∈ s.conflictIssues) →
      (⟨a0.bookPk, ae.scheme, ae.value, f⟩ : AliasPointsToConflictingBookIssue) ∈
        (l.foldl (processAliasElem R p f) s).conflictIssues) := by
  induction l generalizing s with
  | nil =>
    refine ⟨inv, ?_⟩
    rintro (h | h)
    · exact absurd h (List.not_mem_nil ae)
    · exact h
  | cons ae' rest ih =>
    rw [List.foldl_cons]
    obtain ⟨inv', hmem'⟩ := conflictInv_step st stM ae a0 R f p hex howner inv ae'
    obtain ⟨invf, hmemf⟩ := ih inv'
    refine ⟨invf, ?_⟩
    rintro (h | h)
    · rcases List.mem_cons.mp h with heq | hrest
      · exact hmemf (Or.inr (hmem' heq.symm))
      · exact hmemf (Or.inl hrest)
    · exact hmemf (Or.inr (processAliasElem_conflict_mem R p f s ae' h))

/-! ## Claim C6: conflicting aliases are quarantined, never attached -/

/-- The conflict behaviour of the alias-reconciliation step, relative to an
original state `st` and the pre-loop state `stM` left by the upsert: a record
pair whose catalog owners all have a different `book_id` is never attached
(the catalog's pair-matching alias rows stay exactly the original ones), and
exactly one conflict issue for the pk-first owner exists afterwards. -/
theorem process_book_aliases_conflict (st stM : State) (l : List AliasElem) (B : Book)
    (bid : Option String) (f : String) (ae : AliasElem) (a0 : BookAlias)
    (hex : findAlias st ae.scheme ae.value = some a0)
    (howner : ownerBookId stM a0 ≠ bid)
    (hae : ae ∈ l)
    (hwf1 : st.books.Pairwise (fun a b => a.pk ≠ b.pk))
    (hwfa : ∀ a ∈ st.aliases, ∃ b ∈ st.books, a.bookPk = b.pk)
    (hconf : ∀ al ∈ st.aliases, pairMatch ae al = true → ownerBookId st al ≠ bid)
    (hMa : stM.aliases = st.aliases)
    (hMc : stM.conflictIssues = st.conflictIssues)
    (hup : (stM.books = st.books ∧ ∃ bf ∈ st.books, bf.pk = B.pk ∧ bf.book_id = bid)
         ∨ (∃ bn : Book, stM.books = st.books ++ [bn] ∧ bn.pk = B.pk ∧
            (∀ b ∈ st.books, b.pk ≠ bn.pk))) :
    (saveBook (_process_book_aliases stM l B bid f) B).aliases.filter (pairMatch ae) =
      st.aliases.filter (pairMatch ae) ∧
    (saveBook (_process_book_aliases stM l B bid f) B).conflictIssues.count
        ⟨a0.bookPk, ae.scheme, ae.value, f⟩ =
      max (st.conflictIssues.count ⟨a0.bookPk, ae.scheme, ae.value, f⟩) 1 := by
  have inv0 : ConflictInv st stM ae ⟨a0.bookPk, ae.scheme, ae.value, f⟩ stM :=
    ⟨by rw [hMa], rfl, Or.inl (by rw [hMc]), ⟨[], by rw [hMc, List.append_nil]⟩⟩
  obtain ⟨invL, hmemL⟩ := conflictInv_foldl st stM ae a0 bid f B.pk hex howner l inv0
  have hTmemL : (⟨a0.bookPk, ae.scheme, ae.value, f⟩ :
      AliasPointsToConflictingBookIssue) ∈
      (l.foldl (processAliasElem bid B.pk f) stM).conflictIssues :=
    hmemL (Or.inl hae)
  set stL := l.foldl (processAliasElem bid B.pk f) stM with hstLdef
  set stS := saveBook stL B with hstSdef
  have hfinal :
      (_process_book_aliases stM l B bid f).aliases.filter (pairMatch ae) =
        st.aliases.filter (pairMatch ae) ∧
      (_process_book_aliases stM l B bid f).conflictIssues = stL.conflictIssues := by
    cases heb : firstBook (stS.books.filter (fun b => b.book_id == bid)) with
    | none =>
      have hred : _process_book_aliases stM l B bid f = stS := by
        unfold _process_book_aliases backfillStep
        rw [← hstLdef, ← hstSdef, heb]
      rw [hred]
      exact ⟨by rw [hstSdef, saveBook_aliases]; exact invL.pairsEq,
        by rw [hstSdef, saveBook_conflictIssues]⟩
    | some eb =>
      have hred : _process_book_aliases stM l B bid f =
          saveBook (((aliasPairs stS eb.pk).filter
              (fun p => !((aliasPairs stS B.pk).contains p))).foldl
            (fun s p => bookAliasGetOrCreate s B.pk p.1 p.2) stS) B := by
        unfold _process_book_aliases backfillStep
        rw [← hstLdef, ← hstSdef, heb]
      rw [hred]
      have hms : ∀ pr ∈ (aliasPairs stS eb.pk).filter
          (fun p => !((aliasPairs stS B.pk).contains p)),
          ¬(pr.1 = ae.scheme ∧ pr.2 = ae.value) := by
        rintro pr hpr ⟨hprs, hprv⟩
        have hpr' : pr ∈ aliasPairs stS eb.pk := (List.mem_filter.mp hpr).1
        obtain ⟨al, half, halpair⟩ := List.mem_map.mp hpr'
        obtain ⟨halmem, halpk⟩ := List.mem_filter.mp half
        have halpkeq : al.bookPk = eb.pk := by simpa using halpk
        have halS : al ∈ stL.aliases := halmem
        have halpm : pairMatch ae al = true := by
          unfold pairMatch
          have h1 : al.scheme = ae.scheme := by rw [← hprs, ← halpair]
          have h2 : al.value = ae.value := by rw [← hprv, ← halpair]
          simp [h1, h2]
        have halst : al ∈ st.aliases := by
          have hmf : al ∈ stL.aliases.filter (pairMatch ae) :=
            List.mem_filter.mpr ⟨halS, halpm⟩
          rw [invL.pairsEq] at hmf
          exact (List.mem_filter.mp hmf).1
        have hownal : ownerBookId st al ≠ bid := hconf al halst halpm
        have hebmem : eb ∈ stS.books.filter (fun b => b.book_id == bid) :=
          firstBook_mem heb
        obtain ⟨hebS, hebid⟩ := List.mem_filter.mp hebmem
        have hebid' : eb.book_id = bid := by simpa using hebid
        have hSbooks : stS.books = stM.books.map (saveFun B) := by
          rw [hstSdef, saveBook_books, invL.booksEq]
        rw [hSbooks] at hebS
        obtain ⟨b1, hb1, hsf⟩ := List.mem_map.mp hebS
        by_cases hb1pk : b1.pk = B.pk
        · have hebB : eb = B := by
            rw [← hsf]
            unfold saveFun
            rw [if_pos (by simp [hb1pk])]
          have halB : al.bookPk = B.pk := by rw [halpkeq, hebB]
          rcases hup with ⟨_, bf, hbf, hbfpk, hbfid⟩ | ⟨bn, _, hbnpk, hfresh⟩
          · have : ownerBookId st al = bf.book_id :=
              ownerBookId_of_owner hwf1 hbf (by rw [halB, hbfpk])
            rw [this] at hownal
            exact hownal hbfid
          · obtain ⟨b2, hb2, hpk2⟩ := hwfa al halst
            exact hfresh b2 hb2 (by rw [← hpk2, halB, hbnpk])
        · have hebb1 : eb = b1 := by
            rw [← hsf]
            unfold saveFun
            rw [if_neg (by simp [hb1pk])]
          have hb1st : b1 ∈ st.books := by
            rcases hup with ⟨hbeq, _⟩ | ⟨bn, hbeq, hbnpk, _⟩
            · rw [← hbeq]
              exact hb1
            · rw [hbeq] at hb1
              rcases List.mem_append.mp hb1 with h | h
              · exact h
              · exact absurd (by rw [List.mem_singleton.mp h, hbnpk]) hb1pk
          have : ownerBookId st al = b1.book_id :=
            ownerBookId_of_owner hwf1 hb1st (by rw [halpkeq, hebb1])
          rw [this] at hownal
          rw [hebb1] at hebid'
          exact hownal hebid'
      constructor
      · rw [saveBook_aliases, foldl_getOrCreate_filter_pairMatch _ _ _ hms,
          hstSdef, saveBook_aliases]
        exact invL.pairsEq
      · rw [saveBook_conflictIssues, foldl_getOrCreate_conflictIssues,
          hstSdef, saveBook_conflictIssues]
  refine ⟨?_, ?_⟩
  · rw [saveBook_aliases]
    exact hfinal.1
  · rw [saveBook_conflictIssues, hfinal.2]
    rcases invL.cnt with hcc | ⟨hcc, h0⟩
    · have hpos : 0 < stL.conflictIssues.count ⟨a0.bookPk, ae.scheme, ae.value, f⟩ :=
        List.count_pos_iff.mpr hTmemL
      rw [hcc] at hpos ⊢
      exact (Nat.max_eq_left hpos).symm
    · rw [hcc, h0]
      decide

/-- C6: a record alias (scheme, value) already present in the catalog and
owned (per the pk-first lookup the code performs) only by books whose
`book_id` differs from the resolved id is never attached to any book — the
catalog's rows carrying that pair afterwards are exactly the original ones —
and exactly one `AliasPointsToConflictingBookIssue` naming the owning book,
the scheme, the value and the source file exists afterwards (recorded
idempotently per full field tuple). -/
theorem c6_alias_conflict (st : State) (el : BookElement) (f : String)
    (ae : AliasElem) (a0 : BookAlias)
    (hwf : StateWF st)
    (hae : ae ∈ el.aliases)
    (hex : findAlias st ae.scheme ae.value = some a0)
    (hconf : ∀ al ∈ st.aliases, pairMatch ae al = true →
      ownerBookId st al ≠ (_resolve_book_id st el.aliases el.id f).2)
    (s1 : State) (hok : process_book_element st el f = (s1, .ok ())) :
    s1.aliases.filter (pairMatch ae) = st.aliases.filter (pairMatch ae) ∧
    s1.conflictIssues.count ⟨a0.bookPk, ae.scheme, ae.value, f⟩ =
      max (st.conflictIssues.count ⟨a0.bookPk, ae.scheme, ae.value, f⟩) 1 := by
  cases hv : (_infer_book_version (_resolve_book_id st el.aliases el.id f).1
      (_resolve_book_id st el.aliases el.id f).2 f el.version).2 with
  | exn =>
    exfalso
    unfold process_book_element at hok
    simp only [hv] at hok
    exact absurd (congrArg Prod.snd hok) (by simp)
  | ok version =>
    unfold process_book_element at hok
    simp only [hv] at hok
    have hs1 : s1 = saveBook (_process_book_aliases
        (bookGetOrCreate (_infer_book_version (_resolve_book_id st el.aliases el.id f).1
            (_resolve_book_id st el.aliases el.id f).2 f el.version).1
          (_resolve_book_id st el.aliases el.id f).2 version).1
        el.aliases
        { (bookGetOrCreate (_infer_book_version (_resolve_book_id st el.aliases el.id f).1
              (_resolve_book_id st el.aliases el.id f).2 f el.version).1
            (_resolve_book_id st el.aliases el.id f).2 version).2 with
          title := el.title, description := el.description }
        (_resolve_book_id st el.aliases el.id f).2 f)
        { (bookGetOrCreate (_infer_book_version (_resolve_book_id st el.aliases el.id f).1
              (_resolve_book_id st el.aliases el.id f).2 f el.version).1
            (_resolve_book_id st el.aliases el.id f).2 version).2 with
          title := el.title, description := el.description } :=
      (congrArg Prod.fst hok).symm
    obtain ⟨x, y, hshR⟩ := resolve_shape st el.aliases el.id f
    obtain ⟨z, hshI⟩ := infer_shape (_resolve_book_id st el.aliases el.id f).1
      (_resolve_book_id st el.aliases el.id f).2 f el.version
    have hIbooks : (_infer_book_version (_resolve_book_id st el.aliases el.id f).1
        (_resolve_book_id st el.aliases el.id f).2 f el.version).1.books = st.books := by
      rw [hshI, hshR]
    have hIaliases : (_infer_book_version (_resolve_book_id st el.aliases el.id f).1
        (_resolve_book_id st el.aliases el.id f).2 f el.version).1.aliases = st.aliases := by
      rw [hshI, hshR]
    have hIconf : (_infer_book_version (_resolve_book_id st el.aliases el.id f).1
        (_resolve_book_id st el.aliases el.id f).2 f el.version).1.conflictIssues =
        st.conflictIssues := by
      rw [hshI, hshR]
    have hInbpk : (_infer_book_version (_resolve_book_id st el.aliases el.id f).1
        (_resolve_book_id st el.aliases el.id f).2 f el.version).1.nextBookPk =
        st.nextBookPk := by
      rw [hshI, hshR]
    have ha0mem : a0 ∈ st.aliases := findAlias_mem hex
    have ha0pm : pairMatch ae a0 = true := List.find?_some hex
    obtain ⟨b0, hb0, hb0pk⟩ := hwf.2.2 a0 ha0mem
    have hsome0 : (st.books.find? (fun x => x.pk == a0.bookPk)).isSome = true := by
      rw [List.find?_isSome]
      exact ⟨b0, hb0, by simp [hb0pk.symm]⟩
    have hgcfields := bookGetOrCreate_fields
      (_infer_book_version (_resolve_book_id st el.aliases el.id f).1
        (_resolve_book_id st el.aliases el.id f).2 f el.version).1
      (_resolve_book_id st el.aliases el.id f).2 version
    have hup : ((bookGetOrCreate (_infer_book_version (_resolve_book_id st el.aliases el.id f).1
            (_resolve_book_id st el.aliases el.id f).2 f el.version).1
          (_resolve_book_id st el.aliases el.id f).2 version).1.books = st.books ∧
        ∃ bf ∈ st.books, bf.pk =
          ({ (bookGetOrCreate (_infer_book_version (_resolve_book_id st el.aliases el.id f).1
                (_resolve_book_id st el.aliases el.id f).2 f el.version).1
              (_resolve_book_id st el.aliases el.id f).2 version).2 with
            title := el.title, description := el.description } : Book).pk ∧
          bf.book_id = (_resolve_book_id st el.aliases el.id f).2)
      ∨ (∃ bn : Book,
          (bookGetOrCreate (_infer_book_version (_resolve_book_id st el.aliases el.id f).1
              (_resolve_book_id st el.aliases el.id f).2 f el.version).1
            (_resolve_book_id st el.aliases el.id f).2 version).1.books =
            st.books ++ [bn] ∧
          bn.pk = ({ (bookGetOrCreate
              (_infer_book_version (_resolve_book_id st el.aliases el.id f).1
                (_resolve_book_id st el.aliases el.id f).2 f el.version).1
              (_resolve_book_id st el.aliases el.id f).2 version).2 with
            title := el.title, description := el.description } : Book).pk ∧
          (∀ b ∈ st.books, b.pk ≠ bn.pk)) := by
      rcases bookGetOrCreate_books_cases
          (_infer_book_version (_resolve_book_id st el.aliases el.id f).1
            (_resolve_book_id st el.aliases el.id f).2 f el.version).1
          (_resolve_book_id st el.aliases el.id f).2 version with
        ⟨hbeq, hmemf⟩ | ⟨hbeq, hpkf, _⟩
      · refine Or.inl ⟨by rw [hbeq, hIbooks], ?_⟩
        refine ⟨(bookGetOrCreate (_infer_book_version (_resolve_book_id st el.aliases el.id f).1
            (_resolve_book_id st el.aliases el.id f).2 f el.version).1
          (_resolve_book_id st el.aliases el.id f).2 version).2, ?_, rfl, hgcfields.1⟩
        rw [hIbooks] at hmemf
        exact hmemf
      · refine Or.inr ⟨(bookGetOrCreate
            (_infer_book_version (_resolve_book_id st el.aliases el.id f).1
              (_resolve_book_id st el.aliases el.id f).2 f el.version).1
            (_resolve_book_id st el.aliases el.id f).2 version).2,
          by rw [hbeq, hIbooks], rfl, ?_⟩
        intro b hb hcontra
        have hlt : b.pk < st.nextBookPk := hwf.2.1 b hb
        rw [hcontra, hpkf, hInbpk] at hlt
        exact Nat.lt_irrefl _ hlt
    have howner_M : ownerBookId (bookGetOrCreate
        (_infer_book_version (_resolve_book_id st el.aliases el.id f).1
          (_resolve_book_id st el.aliases el.id f).2 f el.version).1
        (_resolve_book_id st el.aliases el.id f).2 version).1 a0 =
        ownerBookId st a0 := by
      rcases bookGetOrCreate_books_cases
          (_infer_book_version (_resolve_book_id st el.aliases el.id f).1
            (_resolve_book_id st el.aliases el.id f).2 f el.version).1
          (_resolve_book_id st el.aliases el.id f).2 version with
        ⟨hbeq, _⟩ | ⟨hbeq, _, _⟩
      · unfold ownerBookId findBookByPk
        rw [hbeq, hIbooks]
      · unfold ownerBookId findBookByPk
        rw [hbeq, hIbooks]
        rw [find?_append_of_isSome _ _ _ hsome0]
    rw [hs1]
    exact process_book_aliases_conflict st _ el.aliases _
      (_resolve_book_id st el.aliases el.id f).2 f ae a0 hex
      (by rw [howner_M]; exact hconf a0 ha0mem ha0pm) hae hwf.1 hwf.2.2 hconf
      (by rw [bookGetOrCreate_aliases, hIaliases])
      (by rw [bookGetOrCreate_conflictIssues, hIconf])
      hup

/-- C6 witness: on the repository's conflict scenario the conflicting alias
stays owned by `book-2` and exactly one conflict issue is recorded. -/
theorem c6_alias_conflict_witness :
    ((process_book_element c6State c6Element "book-conflict.xml").1.aliases.filter
      (pairMatch ⟨some "ISBN-10", some "1000000002"⟩) =
      c6State.aliases.filter (pairMatch ⟨some "ISBN-10", some "1000000002"⟩)) ∧
    ((process_book_element c6State c6Element "book-conflict.xml").1.conflictIssues.count
      ⟨2, some "ISBN-10", some "1000000002", "book-conflict.xml"⟩ =
      max (c6State.conflictIssues.count
        ⟨2, some "ISBN-10", some "1000000002", "book-conflict.xml"⟩) 1) :=
  c6_alias_conflict c6State c6Element "book-conflict.xml"
    ⟨some "ISBN-10", some "1000000002"⟩ ⟨2, 2, some "ISBN-10", some "1000000002"⟩
    ⟨by decide, by decide, by decide⟩ (by decide) (by decide) (by decide)
    (process_book_element c6State c6Element "book-conflict.xml").1 (by decide)

/-! ## Claim C9: uniqueness of (book_id, version) is preserved -/

/-- With distinct pks, two member rows with the same pk are the same row. -/
theorem pk_unique_mem {l : List Book} (hpk : l.Pairwise (fun a b => a.pk ≠ b.pk))
    {x y : Book} (hx : x ∈ l) (hy : y ∈ l) (hxy : x.pk = y.pk) : x = y := by
  induction l with
  | nil => cases hx
  | cons a as ih =>
    rcases List.pairwise_cons.mp hpk with ⟨ha, has⟩
    rcases List.mem_cons.mp hx with rfl | hx'
    · rcases List.mem_cons.mp hy with rfl | hy'
      · rfl
      · exact absurd hxy (ha y hy')
    · rcases List.mem_cons.mp hy with rfl | hy'
      · exact absurd hxy.symm (ha x hx')
      · exact ih has hx' hy'

/-- Saving a book whose (book_id, version) agrees with every row sharing its
pk leaves the list of natural keys unchanged. -/
theorem map_pairOf_saveFun {l : List Book} {B : Book}
    (h : ∀ x ∈ l, x.pk = B.pk → pairOf x = pairOf B) :
    (l.map (saveFun B)).map pairOf = l.map pairOf := by
  rw [List.map_map]
  apply List.map_congr_left
  intro x hx
  simp only [Function.comp]
  unfold saveFun
  by_cases hp : x.pk = B.pk
  · rw [if_pos (by simp [hp])]
    exact (h x hx hp).symm
  · rw [if_neg (by simp [hp])]

/-- C9: processing any record preserves the invariant that no two book rows
share the same (book_id, version) pair — the upsert either reuses the existing
row or creates one with a fresh pair, and every save writes a book whose
natural key agrees with its row's. -/
theorem c9_unique_pair_invariant (st : State) (el : BookElement) (f : String)
    (hwf : StateWF st) (hd : DistinctPairs st) :
    DistinctPairs (process_book_element st el f).1 := by
  obtain ⟨x, y, hshR⟩ := resolve_shape st el.aliases el.id f
  obtain ⟨z, hshI⟩ := infer_shape (_resolve_book_id st el.aliases el.id f).1
    (_resolve_book_id st el.aliases el.id f).2 f el.version
  have hIbooks : (_infer_book_version (_resolve_book_id st el.aliases el.id f).1
      (_resolve_book_id st el.aliases el.id f).2 f el.version).1.books = st.books := by
    rw [hshI, hshR]
  have hInbpk : (_infer_book_version (_resolve_book_id st el.aliases el.id f).1
      (_resolve_book_id st el.aliases el.id f).2 f el.version).1.nextBookPk =
      st.nextBookPk := by
    rw [hshI, hshR]
  cases hv : (_infer_book_version (_resolve_book_id st el.aliases el.id f).1
      (_resolve_book_id st el.aliases el.id f).2 f el.version).2 with
  | exn =>
    unfold process_book_element
    simp only [hv]
    unfold DistinctPairs
    rw [hIbooks]
    exact hd
  | ok version =>
    unfold DistinctPairs
    rw [process_ok_books st el f version hv]
    have hfields := bookGetOrCreate_fields
      (_infer_book_version (_resolve_book_id st el.aliases el.id f).1
        (_resolve_book_id st el.aliases el.id f).2 f el.version).1
      (_resolve_book_id st el.aliases el.id f).2 version
    rcases bookGetOrCreate_books_cases
        (_infer_book_version (_resolve_book_id st el.aliases el.id f).1
          (_resolve_book_id st el.aliases el.id f).2 f el.version).1
        (_resolve_book_id st el.aliases el.id f).2 version with
      ⟨hbeq, hmemf⟩ | ⟨hbeq, hpkf, hnone⟩
    · rw [hbeq, hIbooks]
      rw [map_pairOf_saveFun]
      · exact hd
      · intro w hw hwpk
        rw [hIbooks] at hmemf
        have hweq : w = (bookGetOrCreate
            (_infer_book_version (_resolve_book_id st el.aliases el.id f).1
              (_resolve_book_id st el.aliases el.id f).2 f el.version).1
            (_resolve_book_id st el.aliases el.id f).2 version).2 :=
          pk_unique_mem hwf.1 hw hmemf hwpk
        rw [hweq]
        rfl
    · rw [hbeq, hIbooks]
      rw [map_pairOf_saveFun]
      · rw [List.map_append]
        apply List.Nodup.append hd (List.nodup_singleton _)
        intro p hp hp2
        rw [List.mem_singleton] at hp2
        obtain ⟨w, hw, hwp⟩ := List.mem_map.mp hp
        rw [hIbooks] at hnone
        have hnp := List.find?_eq_none.mp hnone w hw
        apply hnp
        have : pairOf w = pairOf (bookGetOrCreate
            (_infer_book_version (_resolve_book_id st el.aliases el.id f).1
              (_resolve_book_id st el.aliases el.id f).2 f el.version).1
            (_resolve_book_id st el.aliases el.id f).2 version).2 := by
          rw [hwp, hp2]
        unfold pairOf at this
        have h1 : w.book_id = (_resolve_book_id st el.aliases el.id f).2 := by
          rw [(Prod.mk.injEq _ _ _ _).mp this |>.1, hfields.1]
        have h2 : w.version = version := by
          rw [(Prod.mk.injEq _ _ _ _).mp this |>.2, hfields.2]
        simp [h1, h2]
      · intro w hw hwpk
        rcases List.mem_append.mp hw with hw' | hw'
        · exfalso
          have hlt : w.pk < st.nextBookPk := hwf.2.1 w hw'
          rw [hwpk] at hlt
          have : (bookGetOrCreate
              (_infer_book_version (_resolve_book_id st el.aliases el.id f).1
                (_resolve_book_id st el.aliases el.id f).2 f el.version).1
              (_resolve_book_id st el.aliases el.id f).2 version).2.pk =
              st.nextBookPk := by
            rw [hpkf, hInbpk]
          rw [this] at hlt
          exact Nat.lt_irrefl _ hlt
        · rw [List.mem_singleton.mp hw']
          rfl

/-- C9 witness: the invariant, checked through a processed record on the test
fixture. -/
theorem c9_unique_pair_invariant_witness :
    DistinctPairs (process_book_element c6State c6Element "book-conflict.xml").1 :=
  c9_unique_pair_invariant c6State c6Element "book-conflict.xml"
    ⟨by decide, by decide, by decide⟩ (by unfold DistinctPairs; decide)

/-! ## Claim C2: idempotence of re-processing a record

The claim fails as stated, in two distinct ways.  (1) A record with missing
version text re-infers a NEW version on the second run: the first run stores
the inferred version, so the second run's inference finds that row and
returns an incremented version, creating a second book row.  (2) A record
whose id resolves through the untrusted-alias step (step 3) can have an
earlier record alias — unmatched on the first run — match an alias the first
run attached to the processed row, so the second run records a second
`AliasUsedToResolveBookIdIssue` under a different (alias, book) tuple. -/

/-- C2 counterexample, both failure modes.  First conjunct block: the
missing-version record processed twice from the empty catalog creates a
duplicate book row ("1.0" then "2.0").  Second block: the step-3-resolved
record `c2Element3` re-run once more leaves a second
`AliasUsedToResolveBookIdIssue` — its alias (OTHER, W) matched nothing on the
first run but matches the first run's created alias on the second. -/
theorem c2_idempotence_cex :
    ((process_book_element emptyState c2Element "f.xml").2 = .ok () ∧
      (process_book_element emptyState c2Element "f.xml").1.books.map pairOf =
        [(some "X", "1.0")] ∧
      (process_book_element (process_book_element emptyState c2Element "f.xml").1
          c2Element "f.xml").1.books.map pairOf =
        [(some "X", "1.0"), (some "X", "2.0")] ∧
      (process_book_element (process_book_element emptyState c2Element "f.xml").1
          c2Element "f.xml").1 ≠ (process_book_element emptyState c2Element "f.xml").1) ∧
    ((process_book_element c2State3 c2Element3 "f.xml").2 = .ok () ∧
      (process_book_element c2State3 c2Element3 "f.xml").1.aliasResolveIssues.length = 1 ∧
      (process_book_element (process_book_element c2State3 c2Element3 "f.xml").1
          c2Element3 "f.xml").2 = .ok () ∧
      (process_book_element (process_book_element c2State3 c2Element3 "f.xml").1
          c2Element3 "f.xml").1.aliasResolveIssues.length = 2 ∧
      (process_book_element (process_book_element c2State3 c2Element3 "f.xml").1
          c2Element3 "f.xml").1 ≠ (process_book_element c2State3 c2Element3 "f.xml").1) := by
  decide

/-! Support for the amended idempotence theorem. -/

/-- Step 1 of resolution short-circuits when a book with the declared id
exists (shared by the C7 claim and the idempotence argument). -/
theorem resolve_of_existing (st : State) (aliases : List AliasElem)
    (declared : Option String) (f : String) (h : ∃ b ∈ st.books, b.book_id = declared) :
    _resolve_book_id st aliases declared f = (st, declared) := by
  obtain ⟨b, hb, hid⟩ := h
  cases hf : st.books.find? (fun x => x.book_id == declared) with
  | none =>
    exact absurd (by simp [hid]) (List.find?_eq_none.mp hf b hb)
  | some x =>
    unfold _resolve_book_id
    rw [hf]

/-- Saving a book whose row is already up to date is a no-op. -/
theorem saveBook_eq_self {st : State} {b : Book}
    (h : st.books.map (saveFun b) = st.books) : saveBook st b = st := by
  show { st with books := st.books.map (saveFun b) } = st
  rw [h]

theorem find?_append_of_none {α : Type} (p : α → Bool) (l₁ l₂ : List α)
    (h : l₁.find? p = none) : (l₁ ++ l₂).find? p = l₂.find? p := by
  induction l₁ with
  | nil => rfl
  | cons a l ih =>
    by_cases hp : p a
    · rw [List.find?_cons_of_pos _ hp] at h
      exact Option.noConfusion h
    · rw [List.find?_cons_of_neg _ (by simpa using hp)] at h
      rw [List.cons_append, List.find?_cons_of_neg _ (by simpa using hp)]
      exact ih h

/-- Saving preserves each row's pk, so a pk-keyed lookup finds the
corresponding row; and when every row sharing the saved book's pk already has
its `book_id`, owner dereferencing is unchanged. -/
theorem find?_pk_map_saveFun (B : Book) (k : Nat) (l : List Book)
    (hid : ∀ x ∈ l, x.pk = B.pk → x.book_id = B.book_id) :
    ((l.map (saveFun B)).find? (fun b => b.pk == k)).bind (fun b => b.book_id) =
      (l.find? (fun b => b.pk == k)).bind (fun b => b.book_id) := by
  induction l with
  | nil => rfl
  | cons x xs ih =>
    have hxpk : (saveFun B x).pk = x.pk := by
      unfold saveFun
      by_cases hp : x.pk = B.pk
      · rw [if_pos (by simp [hp]), hp]
      · rw [if_neg (by simp [hp])]
    by_cases hm : (x.pk == k) = true
    · rw [List.map_cons,
        (List.find?_cons_of_pos xs hm :
          (x :: xs).find? (fun b => b.pk == k) = some x),
        (List.find?_cons_of_pos (xs.map (saveFun B)) (by rw [hxpk]; exact hm) :
          ((saveFun B x) :: xs.map (saveFun B)).find? (fun b => b.pk == k) =
            some (saveFun B x))]
      have hxid : (saveFun B x).book_id = x.book_id := by
        unfold saveFun
        by_cases hp : x.pk = B.pk
        · rw [if_pos (by simp [hp])]
          exact (hid x (List.mem_cons_self x xs) hp).symm
        · rw [if_neg (by simp [hp])]
      rw [Option.some_bind, Option.some_bind, hxid]
    · rw [List.map_cons,
        (List.find?_cons_of_neg xs (by simpa using hm) :
          (x :: xs).find? (fun b => b.pk == k) =
            xs.find? (fun b => b.pk == k)),
        (List.find?_cons_of_neg (xs.map (saveFun B)) (by rw [hxpk]; simpa using hm) :
          ((saveFun B x) :: xs.map (saveFun B)).find? (fun b => b.pk == k) =
            (xs.map (saveFun B)).find? (fun b => b.pk == k))]
      exact ih (fun z hz => hid z (List.mem_cons_of_mem x hz))

/-- Saving preserves each row's pk, so when every row sharing the saved
book's pk already has its `book_id`, owner dereferencing is unchanged. -/
theorem ownerBookId_saveFun {st st' : State} {B : Book}
    (hb : st'.books = st.books.map (saveFun B))
    (hid : ∀ x ∈ st.books, x.pk = B.pk → x.book_id = B.book_id)
    (a : BookAlias) : ownerBookId st' a = ownerBookId st a := by
  unfold ownerBookId findBookByPk
  rw [hb]
  exact find?_pk_map_saveFun B a.bookPk st.books hid

/-- After the first run's save, the upserted row is found first again by the
(book_id, version) lookup. -/
theorem find?_map_saveFun {p : Book → Bool} {l : List Book} {M B : Book}
    (hfind : l.find? p = some M) (hpk : l.Pairwise (fun a b => a.pk ≠ b.pk))
    (hBpk : B.pk = M.pk) (hpB : p B = true) :
    (l.map (saveFun B)).find? p = some B := by
  induction l with
  | nil => exact Option.noConfusion hfind
  | cons a as ih =>
    rcases List.pairwise_cons.mp hpk with ⟨ha, has⟩
    by_cases hpa : p a
    · rw [List.find?_cons_of_pos _ hpa] at hfind
      have hMa : M = a := (Option.some.inj hfind).symm
      have hsa : saveFun B a = B := by
        unfold saveFun
        rw [if_pos (by simp [hBpk, hMa])]
      rw [List.map_cons, hsa, List.find?_cons_of_pos _ hpB]
    · rw [List.find?_cons_of_neg _ (by simpa using hpa)] at hfind
      have hane : a.pk ≠ B.pk := by
        rw [hBpk]
        exact ha M (List.mem_of_find?_eq_some hfind)
      have hsa : saveFun B a = a := by
        unfold saveFun
        rw [if_neg (by simp [hane])]
      rw [List.map_cons, hsa, List.find?_cons_of_neg _ (by simpa using hpa)]
      exact ih hfind has

theorem find?_map_saveFun_append {p : Book → Bool} {l : List Book} {N B : Book}
    (hnone : l.find? p = none) (hfresh : ∀ x ∈ l, x.pk ≠ N.pk)
    (hBpk : B.pk = N.pk) (hpB : p B = true) :
    ((l ++ [N]).map (saveFun B)).find? p = some B := by
  rw [List.map_append]
  have hl : (l.map (saveFun B)).find? p = none := by
    induction l with
    | nil => rfl
    | cons a as ih =>
      by_cases hpa : p a
      · rw [List.find?_cons_of_pos _ hpa] at hnone
        exact Option.noConfusion hnone
      · rw [List.find?_cons_of_neg _ (by simpa using hpa)] at hnone
        have hsa : saveFun B a = a := by
          unfold saveFun
          rw [if_neg (by simp [hBpk, hfresh a (List.mem_cons_self a as)])]
        rw [List.map_cons, hsa, List.find?_cons_of_neg _ (by simpa using hpa)]
        exact ih hnone (fun z hz => hfresh z (List.mem_cons_of_mem a hz))
  rw [find?_append_of_none _ _ _ hl]
  have hsN : saveFun B N = B := by
    unfold saveFun
    rw [if_pos (by simp [hBpk])]
  rw [List.map_singleton, hsN, List.find?_cons_of_pos _ hpB]

theorem recordConflictIssue_mem_self (st : State) (p : Nat) (sch v : Option String)
    (f : String) :
    (⟨p, sch, v, f⟩ : AliasPointsToConflictingBookIssue) ∈
      (recordConflictIssue st p sch v f).conflictIssues := by
  unfold recordConflictIssue
  split
  · next h => simpa using h
  · exact List.mem_append_right _ (List.mem_singleton.mpr rfl)

theorem bookAliasGetOrCreate_aliases_ext (st : State) (p : Nat) (sch v : Option String) :
    ∃ t, (bookAliasGetOrCreate st p sch v).aliases = st.aliases ++ t := by
  unfold bookAliasGetOrCreate
  split
  · exact ⟨[], (List.append_nil _).symm⟩
  · exact ⟨_, rfl⟩

theorem processAliasElem_aliases_ext (bid : Option String) (bpk : Nat) (f : String)
    (s : State) (ae : AliasElem) :
    ∃ t, (processAliasElem bid bpk f s ae).aliases = s.aliases ++ t := by
  cases hfa : findAlias s ae.scheme ae.value with
  | none =>
    rw [processAliasElem_eq_none hfa]
    exact bookAliasGetOrCreate_aliases_ext ..
  | some a =>
    rw [processAliasElem_eq_some hfa]
    by_cases ho : (ownerBookId s a != bid) = true
    · rw [if_pos ho, recordConflictIssue_aliases]
      exact ⟨[], (List.append_nil _).symm⟩
    · rw [if_neg ho]
      exact bookAliasGetOrCreate_aliases_ext ..

/-- The loop body is the identity on a settled alias. -/
theorem processAliasElem_settled {bid : Option String} {bpk : Nat} {f : String}
    {s : State} {ae : AliasElem} (h : aliasSettled bid bpk f s ae) :
    processAliasElem bid bpk f s ae = s := by
  obtain ⟨a, hfa, hcase⟩ := h
  rw [processAliasElem_eq_some hfa]
  rcases hcase with ⟨ho, hmem⟩ | ⟨ho, hany⟩
  · rw [if_pos ho]
    unfold recordConflictIssue
    rw [if_pos (by simpa using hmem)]
  · rw [if_neg (by simp [ho])]
    unfold bookAliasGetOrCreate
    rw [if_pos hany]

/-- Settledness survives alias appends, owner-preserving book updates and
conflict-table growth. -/
theorem aliasSettled_mono {bid : Option String} {bpk : Nat} {f : String}
    {s s' : State} {ae : AliasElem}
    (hal : ∃ t, s'.aliases = s.aliases ++ t)
    (hown : ∀ a : BookAlias, ownerBookId s' a = ownerBookId s a)
    (hc : ∀ x ∈ s.conflictIssues, x ∈ s'.conflictIssues)
    (h : aliasSettled bid bpk f s ae) : aliasSettled bid bpk f s' ae := by
  obtain ⟨t, ht⟩ := hal
  obtain ⟨a, hfa, hcase⟩ := h
  refine ⟨a, ?_, ?_⟩
  · show s'.aliases.find? (fun x => x.scheme == ae.scheme && x.value == ae.value) = some a
    rw [ht, find?_append_of_isSome _ _ _ (by rw [show s.aliases.find?
        (fun x => x.scheme == ae.scheme && x.value == ae.value) = some a from hfa]; rfl)]
    exact hfa
  · rcases hcase with ⟨ho, hmem⟩ | ⟨ho, hany⟩
    · exact Or.inl ⟨by rw [hown a]; exact ho, hc _ hmem⟩
    · refine Or.inr ⟨by rw [hown a]; exact ho, ?_⟩
      rw [ht, List.any_append, hany, Bool.true_or]

/-- The alias table of a get-or-create carries the pair on the target book. -/
theorem bookAliasGetOrCreate_attached (s : State) (bpk : Nat) (sch v : Option String) :
    (bookAliasGetOrCreate s bpk sch v).aliases.any
      (fun x => x.bookPk == bpk && x.scheme == sch && x.value == v) = true := by
  unfold bookAliasGetOrCreate
  split
  · next h => exact h
  · simp

/-- One loop iteration settles its own record alias, provided the processed
book row carries the resolved id. -/
theorem processAliasElem_establishes (bid : Option String) (bpk : Nat) (f : String)
    (s : State) (ae : AliasElem)
    (hbid : (findBookByPk s bpk).bind (fun b => b.book_id) = bid) :
    aliasSettled bid bpk f (processAliasElem bid bpk f s ae) ae := by
  cases hfa : findAlias s ae.scheme ae.value with
  | some a =>
    rw [processAliasElem_eq_some hfa]
    by_cases ho : (ownerBookId s a != bid) = true
    · rw [if_pos ho]
      refine ⟨a, ?_, Or.inl ⟨?_, ?_⟩⟩
      · rw [findAlias_congr (recordConflictIssue_aliases ..)]
        exact hfa
      · rw [ownerBookId_congr (recordConflictIssue_books ..)]
        exact ho
      · exact recordConflictIssue_mem_self ..
    · have ho' : (ownerBookId s a != bid) = false := by simpa using ho
      rw [if_neg ho]
      refine ⟨a, ?_, Or.inr ⟨?_, ?_⟩⟩
      · obtain ⟨t, ht⟩ := bookAliasGetOrCreate_aliases_ext s bpk ae.scheme ae.value
        show (bookAliasGetOrCreate s bpk ae.scheme ae.value).aliases.find?
          (fun x => x.scheme == ae.scheme && x.value == ae.value) = some a
        rw [ht, find?_append_of_isSome _ _ _ (by rw [show s.aliases.find?
            (fun x => x.scheme == ae.scheme && x.value == ae.value) = some a from hfa]; rfl)]
        exact hfa
      · rw [ownerBookId_congr (bookAliasGetOrCreate_books ..)]
        exact ho'
      · exact bookAliasGetOrCreate_attached ..
  | none =>
    rw [processAliasElem_eq_none hfa]
    have hany : s.aliases.any
        (fun x => x.bookPk == bpk && x.scheme == ae.scheme && x.value == ae.value) = false := by
      rw [List.any_eq_false]
      intro x hx hcon
      refine (List.find?_eq_none.mp hfa x hx) ?_
      simp only [Bool.and_eq_true] at hcon ⊢
      exact ⟨hcon.1.2, hcon.2⟩
    have hs' : bookAliasGetOrCreate s bpk ae.scheme ae.value =
        { s with
          aliases := s.aliases ++ [⟨s.nextAliasPk, bpk, ae.scheme, ae.value⟩],
          nextAliasPk := s.nextAliasPk + 1 } := by
      unfold bookAliasGetOrCreate
      rw [if_neg (by simp [hany])]
    refine ⟨⟨s.nextAliasPk, bpk, ae.scheme, ae.value⟩, ?_, Or.inr ⟨?_, ?_⟩⟩
    · rw [hs']
      have hfind : ((s.aliases ++ [(⟨s.nextAliasPk, bpk, ae.scheme, ae.value⟩ : BookAlias)]).find?
          (fun x => x.scheme == ae.scheme && x.value == ae.value)) =
            some (⟨s.nextAliasPk, bpk, ae.scheme, ae.value⟩ : BookAlias) := by
        rw [find?_append_of_none _ _ _ hfa]
        simp
      exact hfind
    · rw [hs']
      have hown : ownerBookId
          { s with
            aliases := s.aliases ++ [⟨s.nextAliasPk, bpk, ae.scheme, ae.value⟩],
            nextAliasPk := s.nextAliasPk + 1 }
          ⟨s.nextAliasPk, bpk, ae.scheme, ae.value⟩ = bid := by
        show (findBookByPk s bpk).bind (fun b => b.book_id) = bid
        exact hbid
      rw [hown]
      simp [bne]
    · rw [hs']
      have hatt : ((s.aliases ++ [(⟨s.nextAliasPk, bpk, ae.scheme, ae.value⟩ : BookAlias)]).any
          (fun x => x.bookPk == bpk && x.scheme == ae.scheme && x.value == ae.value)) = true := by
        simp
      exact hatt

/-- Settledness is preserved by the remaining loop iterations. -/
theorem foldl_preserves_settled (bid : Option String) (bpk : Nat) (f : String)
    (l : List AliasElem) (s : State) (ae : AliasElem)
    (h : aliasSettled bid bpk f s ae) :
    aliasSettled bid bpk f (l.foldl (processAliasElem bid bpk f) s) ae := by
  induction l generalizing s with
  | nil => exact h
  | cons a2 rest ih =>
    rw [List.foldl_cons]
    exact ih (processAliasElem bid bpk f s a2)
      (aliasSettled_mono (processAliasElem_aliases_ext bid bpk f s a2)
        (ownerBookId_congr (processAliasElem_books bid bpk f s a2))
        (fun x hx => processAliasElem_conflict_mem bid bpk f s a2 hx) h)

/-- Every record alias is settled once the loop has run over it. -/
theorem foldl_establishes (bid : Option String) (bpk : Nat) (f : String)
    (l : List AliasElem) (s : State)
    (hbid : (findBookByPk s bpk).bind (fun b => b.book_id) = bid) :
    ∀ ae ∈ l, aliasSettled bid bpk f (l.foldl (processAliasElem bid bpk f) s) ae := by
  induction l generalizing s with
  | nil => exact fun ae hae => absurd hae (List.not_mem_nil ae)
  | cons a2 rest ih =>
    intro ae hae
    rw [List.foldl_cons]
    rcases List.mem_cons.mp hae with rfl | hmem
    · exact foldl_preserves_settled bid bpk f rest _ ae
        (processAliasElem_establishes bid bpk f s ae hbid)
    · refine ih (processAliasElem bid bpk f s a2) ?_ ae hmem
      show ((processAliasElem bid bpk f s a2).books.find?
        (fun b => b.pk == bpk)).bind (fun b => b.book_id) = bid
      rw [processAliasElem_books]
      exact hbid

/-- The loop is the identity on a state in which all its aliases are settled. -/
theorem foldl_settled (bid : Option String) (bpk : Nat) (f : String)
    (l : List AliasElem) (s : State)
    (h : ∀ ae ∈ l, aliasSettled bid bpk f s ae) :
    l.foldl (processAliasElem bid bpk f) s = s := by
  induction l with
  | nil => rfl
  | cons a2 rest ih =>
    rw [List.foldl_cons, processAliasElem_settled (h a2 (List.mem_cons_self a2 rest))]
    exact ih (fun ae hae => h ae (List.mem_cons_of_mem a2 hae))

theorem mem_map_saveFun_pk (B : Book) (l : List Book) :
    ∀ x ∈ l.map (saveFun B), x.pk = B.pk → x = B := by
  intro x hx hxpk
  obtain ⟨y, hy, rfl⟩ := List.mem_map.mp hx
  unfold saveFun at hxpk ⊢
  by_cases h : y.pk = B.pk
  · rw [if_pos (by simp [h])]
  · rw [if_neg (by simp [h])] at hxpk ⊢
    exact absurd hxpk h

/-- Saving a book into a table whose only row at that pk is the book itself is
the identity on the table. -/
theorem map_saveFun_self (B : Book) (l : List Book)
    (h : ∀ x ∈ l, x.pk = B.pk → x = B) : l.map (saveFun B) = l := by
  induction l with
  | nil => rfl
  | cons a as ih =>
    rw [List.map_cons, ih (fun x hx => h x (List.mem_cons_of_mem a hx))]
    congr 1
    unfold saveFun
    by_cases hp : a.pk = B.pk
    · rw [if_pos (by simp [hp])]
      exact (h a (List.mem_cons_self a as) hp).symm
    · rw [if_neg (by simp [hp])]

theorem foldl_aliasGetOrCreate_aliases_ext (l : List (Option String × Option String))
    (p : Nat) (st : State) :
    ∃ t, (l.foldl (fun s pr => bookAliasGetOrCreate s p pr.1 pr.2) st).aliases =
      st.aliases ++ t := by
  induction l generalizing st with
  | nil => exact ⟨[], (List.append_nil _).symm⟩
  | cons pr rest ih =>
    rw [List.foldl_cons]
    obtain ⟨t1, ht1⟩ := bookAliasGetOrCreate_aliases_ext st p pr.1 pr.2
    obtain ⟨t2, ht2⟩ := ih (bookAliasGetOrCreate st p pr.1 pr.2)
    exact ⟨t1 ++ t2, by rw [ht2, ht1, List.append_assoc]⟩

theorem backfillStep_eq_none {st : State} {book : Book} {bid : Option String}
    (h : firstBook (st.books.filter (fun b => b.book_id == bid)) = none) :
    backfillStep st book bid = st := by
  unfold backfillStep
  rw [h]

theorem backfillStep_eq_some {st : State} {book : Book} {bid : Option String} {eb : Book}
    (h : firstBook (st.books.filter (fun b => b.book_id == bid)) = some eb) :
    backfillStep st book bid =
      saveBook (((aliasPairs st eb.pk).filter
          (fun p => !((aliasPairs st book.pk).contains p))).foldl
        (fun s p => bookAliasGetOrCreate s book.pk p.1 p.2) st) book := by
  unfold backfillStep
  rw [h]

theorem backfillStep_aliases_ext (st : State) (book : Book) (bid : Option String) :
    ∃ t, (backfillStep st book bid).aliases = st.aliases ++ t := by
  cases h : firstBook (st.books.filter (fun b => b.book_id == bid)) with
  | none =>
    rw [backfillStep_eq_none h]
    exact ⟨[], (List.append_nil _).symm⟩
  | some eb =>
    rw [backfillStep_eq_some h, saveBook_aliases]
    exact foldl_aliasGetOrCreate_aliases_ext ..

theorem backfillStep_conflictIssues (st : State) (book : Book) (bid : Option String) :
    (backfillStep st book bid).conflictIssues = st.conflictIssues := by
  cases h : firstBook (st.books.filter (fun b => b.book_id == bid)) with
  | none => rw [backfillStep_eq_none h]
  | some eb =>
    rw [backfillStep_eq_some h, saveBook_conflictIssues]
    exact foldl_getOrCreate_conflictIssues ..

/-- Reduction of `process_book_element` on the non-raising path, with the
resolution and inference results given. -/
theorem process_book_element_ok (st : State) (el : BookElement) (f : String)
    (s0 : State) (R : Option String) (V : String)
    (hr : _resolve_book_id st el.aliases el.id f = (s0, R))
    (hiv : _infer_book_version s0 R f el.version = (s0, PyResult.ok V)) :
    process_book_element st el f =
      (saveBook
        (_process_book_aliases (bookGetOrCreate s0 R V).1 el.aliases
          { (bookGetOrCreate s0 R V).2 with
            title := el.title, description := el.description } R f)
        { (bookGetOrCreate s0 R V).2 with
          title := el.title, description := el.description }, PyResult.ok ()) := by
  have h1 : (_resolve_book_id st el.aliases el.id f).1 = s0 := by rw [hr]
  have h2 : (_resolve_book_id st el.aliases el.id f).2 = R := by rw [hr]
  unfold process_book_element
  simp only [h1, h2, hiv]

/-- Core of the idempotence argument: a second run of `process_book_element`
from the state `s1` left by a first run whose pipeline resolved the id `R`
and produced the processed book `B` from the upsert state `g` is the
identity, provided the second run's resolution step is re-entrant
(hypothesis `hres2`). -/
theorem process_idempotent_core (el : BookElement) (f : String) (q : Rat)
    (R : Option String) (g stL stS st4 s1 : State) (B : Book)
    (hq : pyFloatOpt el.version = some q)
    (hres2 : _resolve_book_id s1 el.aliases el.id f = (s1, R))
    (hstL : stL = el.aliases.foldl (processAliasElem R B.pk f) g)
    (hstS : stS = saveBook stL B)
    (hst4 : st4 = backfillStep stS B R)
    (hs1 : s1 = saveBook st4 B)
    (hBid : B.book_id = R)
    (hBeta : { B with title := el.title, description := el.description } = B)
    (hfind1 : s1.books.find? (fun b => b.book_id == R && b.version == pyStr q) = some B)
    (hid_g : ∀ x ∈ g.books, x.pk = B.pk → x.book_id = B.book_id)
    (hbid_g : (findBookByPk g B.pk).bind (fun b => b.book_id) = R) :
    process_book_element s1 el f = (s1, PyResult.ok ()) := by
  have hpba : _process_book_aliases g el.aliases B R f = st4 := by
    rw [hst4, hstS, hstL]
    rfl
  have hs1books : s1.books = g.books.map (saveFun B) := by
    rw [hs1, ← hpba]
    exact saveBook_books_idem B (process_book_aliases_books g el.aliases B R f)
  have hstLbooks : stL.books = g.books := by
    rw [hstL]
    exact foldl_processAliasElem_books el.aliases R B.pk f g
  have hstSbooks : stS.books = g.books.map (saveFun B) := by
    rw [hstS, saveBook_books, hstLbooks]
  have hbooks_eq : s1.books = stS.books := by rw [hs1books, hstSbooks]
  have hown1 : ∀ a : BookAlias, ownerBookId s1 a = ownerBookId stL a := by
    intro a
    rw [ownerBookId_saveFun hs1books hid_g a, ownerBookId_congr hstLbooks a]
  have hstSaliases : stS.aliases = stL.aliases := by rw [hstS]; rfl
  have hs1aliases : ∃ t, s1.aliases = stL.aliases ++ t := by
    obtain ⟨t, ht⟩ := backfillStep_aliases_ext stS B R
    refine ⟨t, ?_⟩
    rw [hs1, saveBook_aliases, hst4, ht, hstSaliases]
  have hs1conf : s1.conflictIssues = stL.conflictIssues := by
    rw [hs1, saveBook_conflictIssues, hst4, backfillStep_conflictIssues, hstS,
      saveBook_conflictIssues]
  have hsettled1 : ∀ ae ∈ el.aliases, aliasSettled R B.pk f s1 ae := by
    intro ae hae
    have hL : aliasSettled R B.pk f stL ae := by
      rw [hstL]
      exact foldl_establishes R B.pk f el.aliases g hbid_g ae hae
    exact aliasSettled_mono hs1aliases hown1 (fun x hx => by rw [hs1conf]; exact hx) hL
  have hiv2 : _infer_book_version s1 R f el.version = (s1, PyResult.ok (pyStr q)) := by
    unfold _infer_book_version
    rw [hq]
  have hrun2 := process_book_element_ok s1 el f s1 R (pyStr q) hres2 hiv2
  have hgc2 : bookGetOrCreate s1 R (pyStr q) = (s1, B) := by
    unfold bookGetOrCreate
    rw [hfind1]
  simp only [hgc2, hBeta] at hrun2
  have hloop2 : el.aliases.foldl (processAliasElem R B.pk f) s1 = s1 :=
    foldl_settled R B.pk f el.aliases s1 hsettled1
  have hmapid : s1.books.map (saveFun B) = s1.books := by
    refine map_saveFun_self B s1.books ?_
    rw [hs1books]
    exact mem_map_saveFun_pk B g.books
  have hsave2 : saveBook s1 B = s1 := saveBook_eq_self hmapid
  have hpba2 : _process_book_aliases s1 el.aliases B R f = backfillStep s1 B R := by
    unfold _process_book_aliases
    rw [hloop2, hsave2]
  have hbf2 : backfillStep s1 B R = s1 := by
    cases heb : firstBook (s1.books.filter (fun b => b.book_id == R)) with
    | none => exact backfillStep_eq_none heb
    | some eb =>
      have hebS : firstBook (stS.books.filter (fun b => b.book_id == R)) = some eb := by
        rw [← hbooks_eq]
        exact heb
      rw [hstS, hstL] at hebS
      have hsubset := process_book_aliases_backfill g el.aliases B R f eb hebS
      rw [hpba] at hsubset
      have hs1al : s1.aliases = st4.aliases := by rw [hs1, saveBook_aliases]
      have hsubset1 : ∀ x ∈ aliasPairs s1 eb.pk, x ∈ aliasPairs s1 B.pk := by
        rw [aliasPairs_congr hs1al, aliasPairs_congr hs1al]
        exact hsubset
      have hmiss : (aliasPairs s1 eb.pk).filter
          (fun p => !((aliasPairs s1 B.pk).contains p)) = [] := by
        rw [List.filter_eq_nil_iff]
        intro p hp hq2
        rw [List.contains_eq_any_beq] at hq2
        simp only [Bool.not_eq_true', List.any_eq_false] at hq2
        have := hq2 p (hsubset1 p hp)
        simp at this
      rw [backfillStep_eq_some heb, hmiss]
      exact hsave2
  rw [hrun2, hpba2, hbf2, hsave2]

/-! ## Claim C2: the amended idempotence theorem

Both failure modes of the counterexample run through the resolution step or
the version inference.  The theorem below isolates them: whenever the version
text parses and the second run's resolution step returns the first run's
resolved id without touching the state, the whole second run is the identity.
The re-entrancy hypothesis holds for ids resolved by step 1 (the declared id
names a book; the second run short-circuits the same way), step 2 (the
trusted ISBN alias is re-matched first in pk order and its issue tuple is
get-or-created idempotently — the witness below exercises this path) and
step 4 (a brand-new declared id: the first run creates a row with that id, so
the second run short-circuits at step 1).  Only the untrusted-alias step 3
can violate it, which is exactly the counterexample's second block. -/

/-- C2 (amended): re-processing a record is the identity on the catalog state
whenever its version string parses as a float and the second run's resolution
step reproduces the first run's resolved id without touching the state (true
of ids resolved by steps 1, 2 and 4; only the untrusted-alias step 3 can
violate it).  The second run then returns `.ok ()` and leaves the state
produced by the first run byte-for-byte unchanged. -/
theorem c2_idempotent_amended (st : State) (el : BookElement) (f : String)
    (hwf : StateWF st)
    (hv : (pyFloatOpt el.version).isSome)
    (hres : _resolve_book_id (process_book_element st el f).1 el.aliases el.id f =
      ((process_book_element st el f).1, (_resolve_book_id st el.aliases el.id f).2)) :
    process_book_element (process_book_element st el f).1 el f =
      ((process_book_element st el f).1, PyResult.ok ()) := by
  obtain ⟨hpk, hfresh, _⟩ := hwf
  obtain ⟨q, hq⟩ := Option.isSome_iff_exists.mp hv
  have hiv1 : _infer_book_version (_resolve_book_id st el.aliases el.id f).1
      (_resolve_book_id st el.aliases el.id f).2 f el.version =
      ((_resolve_book_id st el.aliases el.id f).1, PyResult.ok (pyStr q)) := by
    unfold _infer_book_version
    rw [hq]
  have hrun1 := process_book_element_ok st el f
    (_resolve_book_id st el.aliases el.id f).1
    (_resolve_book_id st el.aliases el.id f).2 (pyStr q) rfl hiv1
  have hfst : (process_book_element st el f).1 =
      saveBook (_process_book_aliases
        (bookGetOrCreate (_resolve_book_id st el.aliases el.id f).1
          (_resolve_book_id st el.aliases el.id f).2 (pyStr q)).1 el.aliases
        { (bookGetOrCreate (_resolve_book_id st el.aliases el.id f).1
            (_resolve_book_id st el.aliases el.id f).2 (pyStr q)).2 with
          title := el.title, description := el.description }
        (_resolve_book_id st el.aliases el.id f).2 f)
        { (bookGetOrCreate (_resolve_book_id st el.aliases el.id f).1
            (_resolve_book_id st el.aliases el.id f).2 (pyStr q)).2 with
          title := el.title, description := el.description } := by
    rw [hrun1]
  rw [hfst] at hres ⊢
  set R : Option String := (_resolve_book_id st el.aliases el.id f).2 with hR
  set s0 : State := (_resolve_book_id st el.aliases el.id f).1 with hs0
  set B : Book := { (bookGetOrCreate s0 R (pyStr q)).2 with
    title := el.title, description := el.description } with hB
  set g : State := (bookGetOrCreate s0 R (pyStr q)).1 with hg
  set st4 : State := _process_book_aliases g el.aliases B R f with hst4x
  set s1 : State := saveBook st4 B with hs1x
  obtain ⟨ix, iy, hsh⟩ := resolve_shape st el.aliases el.id f
  rw [← hs0] at hsh
  have hs0books : s0.books = st.books := by rw [hsh]
  have hs0next : s0.nextBookPk = st.nextBookPk := by rw [hsh]
  have hpk0 : s0.books.Pairwise (fun a b => a.pk ≠ b.pk) := by
    rw [hs0books]
    exact hpk
  have hfresh0 : ∀ b ∈ s0.books, b.pk < s0.nextBookPk := by
    rw [hs0books, hs0next]
    exact hfresh
  have hBfield := bookGetOrCreate_fields s0 R (pyStr q)
  have hBid : B.book_id = R := by rw [hB]; exact hBfield.1
  have hBver : B.version = pyStr q := by rw [hB]; exact hBfield.2
  have hBeta : { B with title := el.title, description := el.description } = B := by
    rw [hB]
  have hpB : (fun b => b.book_id == R && b.version == pyStr q) B = true := by
    show (B.book_id == R && B.version == pyStr q) = true
    rw [hBid, hBver, beq_self_eq_true, beq_self_eq_true]
    rfl
  have hs1books : s1.books = g.books.map (saveFun B) := by
    rw [hs1x, hst4x]
    exact saveBook_books_idem B (process_book_aliases_books g el.aliases B R f)
  cases hf : s0.books.find? (fun b => b.book_id == R && b.version == pyStr q) with
  | some M =>
    have hgM : bookGetOrCreate s0 R (pyStr q) = (s0, M) := by
      unfold bookGetOrCreate
      rw [hf]
    have hgst : g = s0 := by rw [hg, hgM]
    have hB0M : (bookGetOrCreate s0 R (pyStr q)).2 = M := by rw [hgM]
    have hBpk : B.pk = M.pk := by rw [hB, hB0M]
    have hMmem : M ∈ s0.books := List.mem_of_find?_eq_some hf
    have hMp := List.find?_some hf
    have hMid : M.book_id = R := by
      simp only [Bool.and_eq_true, beq_iff_eq] at hMp
      exact hMp.1
    have hid_g : ∀ x ∈ g.books, x.pk = B.pk → x.book_id = B.book_id := by
      intro x hx hxpk
      rw [hgst] at hx
      have hxM : x = M := pk_unique_mem hpk0 hx hMmem (by rw [hxpk, hBpk])
      rw [hxM, hMid, hBid]
    have hbid_g : (findBookByPk g B.pk).bind (fun b => b.book_id) = R := by
      show ((g.books.find? (fun b => b.pk == B.pk)).bind (fun b => b.book_id)) = R
      rw [hgst, find?_pk_unique hpk0 hMmem B.pk hBpk.symm, Option.some_bind, hMid]
    have hfind1 : s1.books.find?
        (fun b => b.book_id == R && b.version == pyStr q) = some B := by
      rw [hs1books, hgst]
      exact find?_map_saveFun hf hpk0 hBpk hpB
    refine process_idempotent_core el f q R g
      (el.aliases.foldl (processAliasElem R B.pk f) g)
      (saveBook (el.aliases.foldl (processAliasElem R B.pk f) g) B)
      st4 s1 B hq hres rfl rfl ?_ rfl hBid hBeta hfind1 hid_g hbid_g
    rw [hst4x]
    rfl
  | none =>
    have hgN : bookGetOrCreate s0 R (pyStr q) =
        ({ s0 with
           books := s0.books ++ [⟨s0.nextBookPk, R, some "", none, pyStr q⟩],
           nextBookPk := s0.nextBookPk + 1 },
         ⟨s0.nextBookPk, R, some "", none, pyStr q⟩) := by
      unfold bookGetOrCreate
      rw [hf]
    have hgbooks : g.books =
        s0.books ++ [⟨s0.nextBookPk, R, some "", none, pyStr q⟩] := by
      rw [hg, hgN]
    have hB0N : (bookGetOrCreate s0 R (pyStr q)).2 =
        (⟨s0.nextBookPk, R, some "", none, pyStr q⟩ : Book) := by
      rw [hgN]
    have hBpk : B.pk = s0.nextBookPk := by rw [hB, hB0N]
    have hid_g : ∀ x ∈ g.books, x.pk = B.pk → x.book_id = B.book_id := by
      intro x hx hxpk
      rw [hgbooks] at hx
      rcases List.mem_append.mp hx with hx1 | hx2
      · exact absurd (hxpk.trans hBpk) (Nat.ne_of_lt (hfresh0 x hx1))
      · have hxN : x = ⟨s0.nextBookPk, R, some "", none, pyStr q⟩ :=
          List.mem_singleton.mp hx2
        rw [hxN, hBid]
    have hpre : s0.books.find? (fun b => b.pk == s0.nextBookPk) = none :=
      List.find?_eq_none.mpr (fun x hx => by
        simp only [beq_iff_eq]
        exact Nat.ne_of_lt (hfresh0 x hx))
    have hbid_g : (findBookByPk g B.pk).bind (fun b => b.book_id) = R := by
      show ((g.books.find? (fun b => b.pk == B.pk)).bind (fun b => b.book_id)) = R
      rw [hgbooks, hBpk, find?_append_of_none _ _ _ hpre]
      simp
    have hfind1 : s1.books.find?
        (fun b => b.book_id == R && b.version == pyStr q) = some B := by
      rw [hs1books, hgbooks]
      exact find?_map_saveFun_append hf
        (fun x hx => Nat.ne_of_lt (hfresh0 x hx)) hBpk hpB
    refine process_idempotent_core el f q R g
      (el.aliases.foldl (processAliasElem R B.pk f) g)
      (saveBook (el.aliases.foldl (processAliasElem R B.pk f) g) B)
      st4 s1 B hq hres rfl rfl ?_ rfl hBid hBeta hfind1 hid_g hbid_g
    rw [hst4x]
    rfl

/-- Witness for the amended idempotence theorem on a concrete catalog whose
record is resolved through the trusted ISBN alias (step 2) on both runs. -/
theorem c2_idempotent_amended_witness :
    process_book_element (process_book_element c2WState c2WElement "f.xml").1
        c2WElement "f.xml" =
      ((process_book_element c2WState c2WElement "f.xml").1, PyResult.ok ()) :=
  c2_idempotent_amended c2WState c2WElement "f.xml"
    ⟨by decide, by decide, by decide⟩ (by decide) (by decide)

end Figgy
